import Mathlib

/-!
Verification of the AI flashcard generator core
(`src/utils/promptBuilder.ts`, `src/services/cardGenerator.ts`,
`src/services/documentParser.ts`) via a shallow embedding in Lean.

JavaScript strings are modelled as Lean `String`/`List Char`; JSON values as
an inductive `Json` type; `JSON.parse` as a fuelled recursive-descent parser
over the JSON grammar; the RemNote host collaborator
(`createSingleRemWithMarkdown`) as an environment `Nat → HostRes` giving the
outcome of the n-th creation call, with renderers threading a call counter
and accumulating the list of creation calls.  Fallible code returns
`Option`/`Except`; every definition is total and executable.
-/

namespace Flashcards

/-- Left brace character, written via its code point. -/
def lb : Char := Char.ofNat 123

/-- Right brace character, written via its code point. -/
def rb : Char := Char.ofNat 125

/-- The two-character cloze open delimiter "\x7b\x7b" as a char list. -/
def openDelim : List Char := [lb, lb]

/-- Whitespace per the JSON grammar (used by `JSON.parse`): space, tab,
line feed, carriage return. -/
def isJsonWs (c : Char) : Bool :=
  c = ' ' || c = '\t' || c = '\n' || c = '\r'

/-- Whitespace per the JavaScript `\s` class and `String.prototype.trim`
(WhiteSpace plus LineTerminator). -/
def isJsWs (c : Char) : Bool :=
  c.val = 9 || c.val = 10 || c.val = 11 || c.val = 12 || c.val = 13 ||
  c.val = 32 || c.val = 160 || c.val = 0x1680 ||
  (0x2000 ≤ c.val && c.val ≤ 0x200a) ||
  c.val = 0x2028 || c.val = 0x2029 || c.val = 0x202f || c.val = 0x205f ||
  c.val = 0x3000 || c.val = 0xfeff

/-- Decimal digit test. -/
def isDig (c : Char) : Bool := '0' ≤ c && c ≤ '9'

/-- Substring test on char lists (models JavaScript `String.includes` and
regex literal search): some tail of `big` has `pat` as a prefix. -/
def containsSubL (big pat : List Char) : Bool :=
  big.tails.any (fun t => pat.isPrefixOf t)

/-- Substring test on strings. -/
def containsSubS (big pat : String) : Bool :=
  containsSubL big.data pat.data

/-- JSON values as produced by `JSON.parse`.  Numbers keep their source
literal (no claim in this development depends on numeric values, so float
semantics are not modelled).  Objects are ordered member lists; duplicate
keys are kept and property access takes the last one, as `JSON.parse` does. -/
inductive Json where
  | null : Json
  | bool (b : Bool) : Json
  | num (lit : String) : Json
  | str (s : String) : Json
  | arr (elems : List Json) : Json
  | obj (members : List (String × Json)) : Json

/-- JavaScript property access on a parsed object: the last member with the
given key wins (later duplicate keys overwrite earlier ones). -/
def lookupLast (members : List (String × Json)) (key : String) : Option Json :=
  members.foldl (fun acc p => if p.1 = key then some p.2 else acc) none

/-- Field access as the generator code does (`card.type` etc.): `none` for
anything that is not an object with that key (an array or scalar has no such
property, so access yields `undefined`). -/
def getField (j : Json) (key : String) : Option Json :=
  match j with
  | .obj members => lookupLast members key
  | _ => none

/-- Skip JSON-grammar whitespace. -/
def skipWs : List Char → List Char
  | [] => []
  | c :: rest => if isJsonWs c then skipWs rest else c :: rest

/-- Value of a hex digit, `none` if not a hex digit (code-point ranges
48-57 for digits, 97-102 and 65-70 for the letter forms). -/
def hexVal (c : Char) : Option Nat :=
  let n := c.toNat
  if 48 ≤ n ∧ n ≤ 57 then some (n - 48)
  else if 97 ≤ n ∧ n ≤ 102 then some (n - 87)
  else if 65 ≤ n ∧ n ≤ 70 then some (n - 55)
  else none

/-- The lowercase hex digit character for a value below 16. -/
def hexDigitChar (k : Nat) : Char :=
  Char.ofNat (if k < 10 then 48 + k else 87 + k)

/-- Decode four hex digits into a code point; `none` if any is not hex. -/
def hexVal4 (h1 h2 h3 h4 : Char) : Option Nat :=
  (hexVal h1).bind (fun a =>
    (hexVal h2).bind (fun b =>
      (hexVal h3).bind (fun c3 =>
        (hexVal h4).map (fun d => ((a * 16 + b) * 16 + c3) * 16 + d))))

mutual

/-- Parse the body of a JSON string literal, after the opening quote.
Returns the decoded characters and the remainder after the closing quote.
Raw control characters are rejected; the escapes are those of the JSON
grammar. -/
def parseStringBody : List Char → Option (List Char × List Char)
  | [] => none
  | c :: rest =>
    if c = '"' then some ([], rest)
    else if c = '\\' then parseEscape rest
    else if c.val < 32 then none
    else (parseStringBody rest).map (fun p => (c :: p.1, p.2))

/-- Parse one escape sequence (after the backslash) and the remainder of
the string body.  A `\u` escape denoting a surrogate half decodes to
U+FFFD (Lean chars are scalar values; no claim depends on surrogate
handling). -/
def parseEscape : List Char → Option (List Char × List Char)
  | [] => none
  | e :: rest2 =>
    if e = '"' then (parseStringBody rest2).map (fun p => ('"' :: p.1, p.2))
    else if e = '\\' then (parseStringBody rest2).map (fun p => ('\\' :: p.1, p.2))
    else if e = '/' then (parseStringBody rest2).map (fun p => ('/' :: p.1, p.2))
    else if e = 'b' then (parseStringBody rest2).map (fun p => (Char.ofNat 8 :: p.1, p.2))
    else if e = 'f' then (parseStringBody rest2).map (fun p => (Char.ofNat 12 :: p.1, p.2))
    else if e = 'n' then (parseStringBody rest2).map (fun p => ('\n' :: p.1, p.2))
    else if e = 'r' then (parseStringBody rest2).map (fun p => (Char.ofNat 13 :: p.1, p.2))
    else if e = 't' then (parseStringBody rest2).map (fun p => ('\t' :: p.1, p.2))
    else if e = 'u' then
      match rest2 with
      | h1 :: h2 :: h3 :: h4 :: rest3 =>
        (hexVal4 h1 h2 h3 h4).bind (fun n =>
          (parseStringBody rest3).map (fun p =>
            ((if 0xd800 ≤ n && n < 0xe000 then Char.ofNat 0xfffd else Char.ofNat n) ::
              p.1, p.2)))
      | _ => none
    else none

end

/-- Scan a JSON number literal (sign, integer part, optional fraction,
optional exponent), returning the matched characters and the rest. -/
def scanNumber (cs : List Char) : Option (List Char × List Char) :=
  let (sign, cs1) :=
    match cs with
    | '-' :: t => (['-'], t)
    | _ => (([] : List Char), cs)
  match cs1 with
  | [] => none
  | c :: t =>
    if c = '0' then
      let (fr, cs2) := scanFrac t
      (some (sign ++ ['0'] ++ fr, cs2) : Option (List Char × List Char))
    else if isDig c then
      let ds := t.takeWhile isDig
      let (fr, cs2) := scanFrac (t.drop ds.length)
      some (sign ++ (c :: ds) ++ fr, cs2)
    else none
where
  /-- Optional fraction then optional exponent. -/
  scanFrac (cs : List Char) : List Char × List Char :=
    let (fr, cs1) :=
      match cs with
      | '.' :: t =>
        let ds := t.takeWhile isDig
        if ds = [] then (([] : List Char), cs)
        else ('.' :: ds, t.drop ds.length)
      | _ => ([], cs)
    let (ex, cs2) := scanExp cs1
    (fr ++ ex, cs2)
  /-- Optional exponent part. -/
  scanExp (cs : List Char) : List Char × List Char :=
    match cs with
    | e :: t =>
      if e = 'e' || e = 'E' then
        let (sg, t1) :=
          match t with
          | '+' :: t2 => (['+'], t2)
          | '-' :: t2 => (['-'], t2)
          | _ => (([] : List Char), t)
        let ds := t1.takeWhile isDig
        if ds = [] then ([], cs) else (e :: (sg ++ ds), t1.drop ds.length)
      else ([], cs)
    | [] => ([], cs)

/-- Parsing modes of the recursive-descent JSON parser: a single value, the
elements of an array (right after `[`), the remaining elements (after one
element has been parsed), the members of an object (right after the opening
brace), the remaining members. -/
inductive PMode where
  | val | elems | elemsRest | members | membersRest
deriving DecidableEq

/-- Results of the modal parser. -/
inductive PRes where
  | v (j : Json)
  | list (js : List Json)
  | fields (fs : List (String × Json))

/-- Fuelled recursive-descent parser for the JSON grammar, one step of fuel
per recursive call.  A single total function over fuel so that the kernel
can evaluate it (structural recursion on the fuel argument). -/
def parseP : Nat → PMode → List Char → Option (PRes × List Char)
  | 0, _, _ => none
  | fuel + 1, .val, cs =>
    match skipWs cs with
    | [] => none
    | c :: rest =>
      if c = '"' then
        (parseStringBody rest).map (fun p => (.v (.str (String.mk p.1)), p.2))
      else if c = '[' then
        (parseP fuel .elems rest).bind (fun p =>
          match p.1 with
          | .list js => some (.v (.arr js), p.2)
          | _ => none)
      else if c = lb then
        (parseP fuel .members rest).bind (fun p =>
          match p.1 with
          | .fields fs => some (.v (.obj fs), p.2)
          | _ => none)
      else if c = 't' then
        match rest with
        | 'r' :: 'u' :: 'e' :: rest2 => some (.v (.bool true), rest2)
        | _ => none
      else if c = 'f' then
        match rest with
        | 'a' :: 'l' :: 's' :: 'e' :: rest2 => some (.v (.bool false), rest2)
        | _ => none
      else if c = 'n' then
        match rest with
        | 'u' :: 'l' :: 'l' :: rest2 => some (.v .null, rest2)
        | _ => none
      else if c = '-' || isDig c then
        (scanNumber (c :: rest)).map (fun p => (.v (.num (String.mk p.1)), p.2))
      else none
  | fuel + 1, .elems, cs =>
    match skipWs cs with
    | [] => none
    | c :: rest =>
      if c = ']' then some (.list [], rest)
      else
        (parseP fuel .val (c :: rest)).bind (fun p =>
          match p.1 with
          | .v j =>
            (parseP fuel .elemsRest p.2).bind (fun q =>
              match q.1 with
              | .list js => some (.list (j :: js), q.2)
              | _ => none)
          | _ => none)
  | fuel + 1, .elemsRest, cs =>
    match skipWs cs with
    | [] => none
    | c :: rest =>
      if c = ']' then some (.list [], rest)
      else if c = ',' then
        (parseP fuel .val rest).bind (fun p =>
          match p.1 with
          | .v j =>
            (parseP fuel .elemsRest p.2).bind (fun q =>
              match q.1 with
              | .list js => some (.list (j :: js), q.2)
              | _ => none)
          | _ => none)
      else none
  | fuel + 1, .members, cs =>
    match skipWs cs with
    | [] => none
    | c :: rest =>
      if c = rb then some (.fields [], rest)
      else if c = '"' then
        (parseStringBody rest).bind (fun kp =>
          match skipWs kp.2 with
          | ':' :: rest2 =>
            (parseP fuel .val rest2).bind (fun p =>
              match p.1 with
              | .v j =>
                (parseP fuel .membersRest p.2).bind (fun q =>
                  match q.1 with
                  | .fields fs => some (.fields ((String.mk kp.1, j) :: fs), q.2)
                  | _ => none)
              | _ => none)
          | _ => none)
      else none
  | fuel + 1, .membersRest, cs =>
    match skipWs cs with
    | [] => none
    | c :: rest =>
      if c = rb then some (.fields [], rest)
      else if c = ',' then
        match skipWs rest with
        | '"' :: rest2 =>
          (parseStringBody rest2).bind (fun kp =>
            match skipWs kp.2 with
            | ':' :: rest3 =>
              (parseP fuel .val rest3).bind (fun p =>
                match p.1 with
                | .v j =>
                  (parseP fuel .membersRest p.2).bind (fun q =>
                    match q.1 with
                    | .fields fs => some (.fields ((String.mk kp.1, j) :: fs), q.2)
                    | _ => none)
                | _ => none)
            | _ => none)
        | _ => none
      else none

/-- Model of `JSON.parse` on a char list: parse one value surrounded by
whitespace, requiring the whole input to be consumed; `none` models a thrown
`SyntaxError`.  The fuel `2 * length + 2` exceeds the number of recursive
calls any parse of the input can make. -/
def parseJsonTopL (cs : List Char) : Option Json :=
  match parseP (2 * cs.length + 2) .val cs with
  | some (.v j, rest) => if skipWs rest = [] then some j else none
  | _ => none

/-! ### Payload extraction and cleanup (`parseAIResponse`, steps 1-2) -/

/-- `String.prototype.trim`: strip JS whitespace from both ends (char list). -/
def jsTrimL (cs : List Char) : List Char :=
  ((cs.dropWhile isJsWs).reverse.dropWhile isJsWs).reverse

/-- `String.prototype.trim` on strings. -/
def jsTrimS (s : String) : String := String.mk (jsTrimL s.data)

/-- Split `cs` at the first occurrence of `pat`, returning the part before
and the part after the occurrence; `none` if `pat` does not occur. -/
def splitAtSub (pat : List Char) : List Char → Option (List Char × List Char)
  | [] => if pat.isEmpty then some ([], []) else none
  | c :: rest =>
    if pat.isPrefixOf (c :: rest) then some ([], (c :: rest).drop pat.length)
    else (splitAtSub pat rest).map (fun p => (c :: p.1, p.2))

/-- The regex `/(three backticks)json\s*([^]*?)\s*(three backticks)/` applied
to the response (promptBuilder.ts line 82): the candidate payload is the text
between the first occurrence of "(three backticks)json" and the first
occurrence of "(three backticks)" after it, with surrounding `\s*` absorbed
into the match (i.e. the capture group is that region trimmed); when the
regex does not match, the whole response is the candidate. -/
def extractPayload (cs : List Char) : List Char :=
  match splitAtSub ['`', '`', '`', 'j', 's', 'o', 'n'] cs with
  | none => cs
  | some (_, afterOpen) =>
    match splitAtSub ['`', '`', '`'] afterOpen with
    | none => cs
    | some (mid, _) => jsTrimL mid

/-- One global-replace pass of `/,\s*C/g → C` for a closing character `C`
(promptBuilder.ts lines 88-89): scanning left to right, a comma followed by
a run of JS whitespace and then `C` is replaced by `C` alone (the comma and
the whitespace are dropped); scanning resumes after the replacement.  The
second argument buffers, reversed, the whitespace seen since a pending
comma (`none` = no pending comma). -/
def rccGo (close : Char) : Option (List Char) → List Char → List Char
  | none, [] => []
  | some ws, [] => ',' :: ws.reverse
  | none, c :: rest =>
    if c = ',' then rccGo close (some []) rest
    else c :: rccGo close none rest
  | some ws, c :: rest =>
    if c = close then close :: rccGo close none rest
    else if isJsWs c then rccGo close (some (c :: ws)) rest
    else if c = ',' then ',' :: ws.reverse ++ rccGo close (some []) rest
    else ',' :: ws.reverse ++ c :: rccGo close none rest

/-- Global replace of a trailing comma before `close`. -/
def rcc (close : Char) (cs : List Char) : List Char := rccGo close none cs

/-- The cleaned candidate payload handed to `JSON.parse`: extract the fenced
block if present, trim, strip trailing commas before `]`, then before the
closing brace (promptBuilder.ts lines 82-89). -/
def cleanedPayload (response : String) : List Char :=
  rcc rb (rcc ']' (jsTrimL (extractPayload response.data)))

/-- The result of `JSON.parse` inside `parseAIResponse`; `none` models the
thrown-and-caught `SyntaxError`. -/
def parsedPayload (response : String) : Option Json :=
  parseJsonTopL (cleanedPayload response)

/-! ### Card validation and normalization (`parseAIResponse`, steps 3-5) -/

/-- The closed card-type enumeration (`validTypes`, promptBuilder.ts
line 118, and the `CardType` union in types/index.ts). -/
def validTypes : List String := ["basic", "basic-reverse", "cloze", "list", "descriptor"]

/-- `isValidCard` (promptBuilder.ts lines 112-133), on a parsed JSON value:
non-null object check (`typeof card === 'object'` also admits arrays, which
then fail the type-field test since arrays have no `type` property);
`type` must be one of `validTypes` (the `includes` test succeeds only on a
string value equal to one of them); a cloze card needs a string `clozeText`
containing the open delimiter; a list card needs a string `front` and an
array `back`; any other card needs string `front` and `back`. -/
def isValidCard (card : Json) : Bool :=
  match card with
  | .obj _ | .arr _ =>
    match getField card "type" with
    | some (.str t) =>
      if (validTypes.contains t : Bool) then
        if t = "cloze" then
          match getField card "clozeText" with
          | some (.str ct) => containsSubL ct.data openDelim
          | _ => false
        else if t = "list" then
          (match getField card "front" with
           | some (.str _) => true
           | _ => false) &&
          (match getField card "back" with
           | some (.arr _) => true
           | _ => false)
        else
          (match getField card "front" with
           | some (.str _) => true
           | _ => false) &&
          (match getField card "back" with
           | some (.str _) => true
           | _ => false)
      else false
    | _ => false
  | _ => false

/-- JavaScript truthiness of a parsed JSON value (`undefined` is handled at
use sites via `Option`).  A number is falsy exactly when its mantissa is
all zeros. -/
def jsTruthy (j : Json) : Bool :=
  match j with
  | .null => false
  | .bool b => b
  | .num lit =>
    !((lit.data.takeWhile (fun c => c ≠ 'e' && c ≠ 'E')).all
        (fun c => c = '0' || c = '.' || c = '-'))
  | .str s => s ≠ ""
  | .arr _ => true
  | .obj _ => true

mutual

/-- JavaScript `String(x)` conversion on parsed JSON values
(`Array.prototype.toString` joins the elements with commas, rendering
`null` elements as empty).  A number renders as its source literal — a
model: no claim depends on JS float formatting. -/
def jsString : Json → String
  | .null => "null"
  | .bool b => if b then "true" else "false"
  | .num lit => lit
  | .str s => s
  | .arr xs => String.intercalate "," (jsStringElems xs)
  | .obj _ => "[object Object]"

/-- Element rendering for `Array.prototype.toString`: `null` (and
`undefined`) elements render as the empty string. -/
def jsStringElems : List Json → List String
  | [] => []
  | .null :: t => "" :: jsStringElems t
  | x :: t => jsString x :: jsStringElems t

end

/-- `String(v || '')`: the empty string when the value is absent
(`undefined`) or falsy, otherwise its string conversion. -/
def jsOrEmpty (v : Option Json) : String :=
  match v with
  | none => ""
  | some j => if jsTruthy j then jsString j else ""

/-- The `back` field of a canonical card: a single text or a list of texts
(`string | string[]` in types/index.ts). -/
inductive CardBack where
  | s (v : String)
  | l (vs : List String)
deriving DecidableEq

/-- `FlashcardData` (types/index.ts): the canonical card record.  `type` is
the card-type string (validation guarantees membership in `validTypes`). -/
structure FlashcardData where
  type : String
  front : String
  back : CardBack
  clozeText : Option String
deriving DecidableEq

/-- `normalizeCard` (promptBuilder.ts lines 138-152): coerce a validated
element into the canonical shape.  `type` is passed through (the source
casts it; validity guarantees it is one of the five strings — the default
branch is unreachable on validated input).  `front` and a non-list `back`
are `String(x || '')`; a list `back` maps `String` over the elements (the
non-array default is unreachable on validated input); `clozeText` is set
only for a cloze card with a truthy `clozeText`. -/
def normalizeCard (card : Json) : FlashcardData :=
  let ty := match getField card "type" with
    | some (.str t) => t
    | _ => ""
  { type := ty
    front := jsOrEmpty (getField card "front")
    back :=
      if ty = "list" then
        .l (match getField card "back" with
            | some (.arr xs) => xs.map jsString
            | _ => [])
      else .s (jsOrEmpty (getField card "back"))
    clozeText :=
      if ty = "cloze" then
        match getField card "clozeText" with
        | some ct => if jsTruthy ct then some (jsString ct) else none
        | none => none
      else none }

/-- `parseAIResponse` (promptBuilder.ts lines 79-107): extract the candidate
payload, clean it, parse it; any parse failure or a non-array top-level
value yields `[]` (the thrown error is caught at the function boundary);
otherwise filter out invalid elements and normalize the survivors.  Total
by construction: the function never fails. -/
def parseAIResponse (response : String) : List FlashcardData :=
  match parsedPayload response with
  | some (.arr elems) => (elems.filter isValidCard).map normalizeCard
  | _ => []

/-! ### `JSON.stringify` on canonical card lists (for the idempotence claim) -/

/-- `JSON.stringify` escaping of one string character: quote, backslash and
the named control characters get two-character escapes, the remaining
control characters get `\u00XX`, everything else is kept. -/
def escChar (c : Char) : List Char :=
  if c = '"' then ['\\', '"']
  else if c = '\\' then ['\\', '\\']
  else if c.val = 8 then ['\\', 'b']
  else if c.val = 9 then ['\\', 't']
  else if c.val = 10 then ['\\', 'n']
  else if c.val = 12 then ['\\', 'f']
  else if c.val = 13 then ['\\', 'r']
  else if c.val < 32 then
    ['\\', 'u', '0', '0',
     if c.toNat / 16 = 1 then '1' else '0',
     hexDigitChar (c.toNat % 16)]
  else [c]

/-- `JSON.stringify` of a string: quoted, characters escaped. -/
def strLitL (s : String) : List Char :=
  '"' :: (s.data.map escChar).flatten ++ ['"']

/-- Comma-separated concatenation of serialized items. -/
def joinCommaL : List (List Char) → List Char
  | [] => []
  | [x] => x
  | x :: y :: t => x ++ ',' :: joinCommaL (y :: t)

/-- `JSON.stringify` of a `back` value: a string literal or an array of
string literals. -/
def backStrL : CardBack → List Char
  | .s v => strLitL v
  | .l vs => '[' :: joinCommaL (vs.map strLitL) ++ [']']

/-- `JSON.stringify` of one canonical card: keys in insertion order
(`type`, `front`, `back`, then `clozeText` when present — the order
`normalizeCard` assigns them). -/
def cardStrL (c : FlashcardData) : List Char :=
  lb :: strLitL "type" ++ ':' :: strLitL c.type ++
  ',' :: strLitL "front" ++ ':' :: strLitL c.front ++
  ',' :: strLitL "back" ++ ':' :: backStrL c.back ++
  (match c.clozeText with
   | some t => ',' :: strLitL "clozeText" ++ ':' :: strLitL t
   | none => []) ++ [rb]

/-- The serialization of one canonical card without its opening brace
(used to expose the head character to the parser lemmas). -/
def cardStrTail (c : FlashcardData) : List Char :=
  strLitL "type" ++ ':' :: strLitL c.type ++
  ',' :: strLitL "front" ++ ':' :: strLitL c.front ++
  ',' :: strLitL "back" ++ ':' :: backStrL c.back ++
  (match c.clozeText with
   | some t => ',' :: strLitL "clozeText" ++ ':' :: strLitL t
   | none => []) ++ [rb]

/-- `JSON.stringify` of a canonical card list. -/
def stringifyCards (cards : List FlashcardData) : String :=
  String.mk ('[' :: joinCommaL (cards.map cardStrL) ++ [']'])

/-- The JSON value of a serialized `back`. -/
def backJson : CardBack → Json
  | .s v => .str v
  | .l vs => .arr (vs.map .str)

/-- The JSON value that `JSON.parse` recovers from a serialized canonical
card (the same member list, every value a string or an array of strings). -/
def cardToJson (c : FlashcardData) : Json :=
  .obj ([("type", .str c.type), ("front", .str c.front), ("back", backJson c.back)] ++
        (match c.clozeText with
         | some t => [("clozeText", Json.str t)]
         | none => []))

/-! ### Prompt compiler (`buildPrompt`, `getCardTypeDescriptions`) -/

/-- The per-type descriptive block (the `descriptions` record in
`getCardTypeDescriptions`, promptBuilder.ts lines 43-68), `none` for a
string outside the record (JS indexing yields `undefined` there). -/
def descFor : String → Option String
  | "basic" => some "**basic（基础问答卡）**\n  - 用途：简单的问答对\n  - 格式：\x7b\"type\": \"basic\", \"front\": \"问题\", \"back\": \"答案\"\x7d\n  - 示例：\x7b\"type\": \"basic\", \"front\": \"什么是光合作用？\", \"back\": \"植物利用阳光、水和二氧化碳制造葡萄糖和氧气的过程\"\x7d"
  | "basic-reverse" => some "**basic-reverse（双向问答卡）**\n  - 用途：需要双向记忆的概念对\n  - 格式：\x7b\"type\": \"basic-reverse\", \"front\": \"概念A\", \"back\": \"概念B\"\x7d\n  - 示例：\x7b\"type\": \"basic-reverse\", \"front\": \"中国首都\", \"back\": \"北京\"\x7d"
  | "cloze" => some "**cloze（填空卡）**\n  - 用途：记忆句子中的关键词或短语\n  - 格式：\x7b\"type\": \"cloze\", \"front\": \"\", \"back\": \"\", \"clozeText\": \"句子，关键词用\x7b\x7b双大括号\x7d\x7d包裹\"\x7d\n  - 示例：\x7b\"type\": \"cloze\", \"front\": \"\", \"back\": \"\", \"clozeText\": \"光合作用主要发生在植物细胞的\x7b\x7b叶绿体\x7d\x7d中\"\x7d"
  | "list" => some "**list（列表卡）**\n  - 用途：需要记忆多个相关项目\n  - 格式：\x7b\"type\": \"list\", \"front\": \"问题\", \"back\": [\"项目1\", \"项目2\", \"项目3\"]\x7d\n  - 示例：\x7b\"type\": \"list\", \"front\": \"列举三原色\", \"back\": [\"红色\", \"绿色\", \"蓝色\"]\x7d"
  | "descriptor" => some "**descriptor（描述卡）**\n  - 用途：定义某个概念的具体属性\n  - 格式：\x7b\"type\": \"descriptor\", \"front\": \"属性名\", \"back\": \"属性值\"\x7d\n  - 示例：\x7b\"type\": \"descriptor\", \"front\": \"化学符号\", \"back\": \"H2O\"\x7d"
  | _ => none

/-- `Array.prototype.join(sep)`: the items separated by `sep`. -/
def joinWith (sep : String) : List String → String
  | [] => ""
  | [x] => x
  | x :: y :: rest => x ++ sep ++ joinWith sep (y :: rest)

/-- `getCardTypeDescriptions` (promptBuilder.ts lines 42-74): keep the
requested types whose description exists, map each occurrence to its block,
join with blank lines. -/
def getCardTypeDescriptions (cardTypes : List String) : String :=
  joinWith "\n\n"
    ((cardTypes.filter (fun t => (descFor t).isSome)).map (fun t => (descFor t).getD ""))

/-- The closed-list sentence fragment: each requested type quoted, joined
with comma-space (promptBuilder.ts line 30). -/
def joinComma (types : List String) : String :=
  joinWith ", " (types.map (fun t => "\"" ++ t ++ "\""))

/-- Template text before `${maxCards}` (promptBuilder.ts lines 9-15). -/
def promptP1 : String := "你是一个专业的教育内容分析师。请分析以下文本，提取关键知识点并生成记忆卡片。\n\n## 任务说明\n1. 仔细阅读文本内容，识别重要的知识点、概念、定义、关系等\n2. 为每个知识点选择最合适的卡片类型\n3. 确保问题清晰具体，答案准确简洁\n4. 生成 "

/-- Template text between `${maxCards}` and the type descriptions. -/
def promptP2 : String := " 张以内的卡片\n\n## 可用的卡片类型\n"

/-- Template text between the type descriptions and the closed type list
(promptBuilder.ts lines 19-30, including the fenced output contract). -/
def promptP3 : String := "\n\n## 输出格式\n请严格按照以下 JSON 格式输出，不要添加任何其他内容：\n```json\n[\n  \x7b\"type\": \"卡片类型\", \"front\": \"问题/正面\", \"back\": \"答案/反面\"\x7d,\n  \x7b\"type\": \"cloze\", \"front\": \"\", \"back\": \"\", \"clozeText\": \"完整句子，关键词用\x7b\x7b双大括号\x7d\x7d包裹\"\x7d\n]\n```\n\n## 注意事项\n- type 必须是以下之一："

/-- Template text between the closed type list and the source text
(promptBuilder.ts lines 31-35). -/
def promptP4 : String := "\n- cloze 类型的卡片必须包含 clozeText 字段\n- list 类型的 back 字段必须是字符串数组\n- 确保 JSON 格式正确，可以被解析\n\n## 待分析的文本内容\n"

/-- `buildPrompt` (promptBuilder.ts lines 6-37): the full instruction
string, a pure function of its inputs. -/
def buildPrompt (text : String) (cardTypes : List String) (maxCards : Nat) : String :=
  promptP1 ++ toString maxCards ++ promptP2 ++ getCardTypeDescriptions cardTypes ++
    promptP3 ++ joinComma cardTypes ++ promptP4 ++ text

/-! ### Card renderer (`cardGenerator.ts`) -/

/-- Outcome of one host `createSingleRemWithMarkdown` call: a created node
reference, `undefined`, or a thrown exception. -/
inductive HostRes where
  | ok (id : String)
  | undef
  | exn
deriving DecidableEq

/-- The host collaborator, modelled as the outcome of the n-th creation
call. -/
def Env : Type := Nat → HostRes

/-- One recorded creation call: markup text and optional parent ref. -/
structure HostCall where
  text : String
  parent : Option String
deriving DecidableEq

/-- Perform one host creation call: returns the call result (`Except`
models a thrown exception), the advanced call counter, and the singleton
call trace. -/
def callNode (env : Env) (k : Nat) (text : String) (parent : Option String) :
    Except Unit (Option String) × Nat × List HostCall :=
  ((match env k with
    | .ok id => .ok (some id)
    | .undef => .ok none
    | .exn => .error ()), k + 1, [⟨text, parent⟩])

/-- Render `card.back` inside a template literal (`${card.back}`): a string
interpolates as itself, an array via `Array.prototype.toString`. -/
def backToString : CardBack → String
  | .s v => v
  | .l vs => String.intercalate "," vs

/-- Match the cloze numbered-deletion pattern at the head of the input:
two open braces, `c`, one or more digits, `::`, then a lazy run of
non-line-terminator characters up to the first `\x7d\x7d`.  Returns the
captured group and the remainder after the match. -/
def clozeMatchAt (cs : List Char) : Option (List Char × List Char) :=
  match cs with
  | c1 :: c2 :: c3 :: rest =>
    if c1 = lb && c2 = lb && c3 = 'c' then
      let ds := rest.takeWhile isDig
      if ds.isEmpty then none
      else
        match rest.drop ds.length with
        | ':' :: ':' :: rest2 => contentScan rest2
        | _ => none
    else none
  | _ => none
where
  /-- Lazy scan for the first closing `\x7d\x7d`; `.` does not match line
  terminators, so a line terminator before the close kills the match. -/
  contentScan : List Char → Option (List Char × List Char)
    | [] => none
    | c :: rest =>
      if c = rb then
        match rest with
        | c2 :: rest2 =>
          if c2 = rb then some ([], rest2)
          else (contentScan rest).map (fun p => (c :: p.1, p.2))
        | [] => none
      else if c.val = 10 || c.val = 13 || c.val = 0x2028 || c.val = 0x2029 then none
      else (contentScan rest).map (fun p => (c :: p.1, p.2))

/-- Global replace of `\x7b\x7bcN::X\x7d\x7d` by `\x7b\x7bX\x7d\x7d`
(cardGenerator.ts line 97), scanning left to right with one unit of fuel
per consumed character; a replacement consumes the whole match. -/
def clozeGo : Nat → List Char → List Char
  | 0, cs => cs
  | _ + 1, [] => []
  | fuel + 1, c :: rest =>
    match clozeMatchAt (c :: rest) with
    | some (inner, after) => lb :: lb :: inner ++ rb :: rb :: clozeGo fuel after
    | none => c :: clozeGo fuel rest

/-- The cloze rewrite applied by `createClozeCard`. -/
def clozeRewriteS (s : String) : String := String.mk (clozeGo s.data.length s.data)

/-- `createSingleCard` (cardGenerator.ts lines 45-61) together with the
per-type helpers: dispatch on the card type, emit the type-specific markup
through the host collaborator.  `basic`/`basic-reverse`/`descriptor` emit
one node; `cloze` emits one node with the rewritten cloze text (or nothing
when `clozeText` is absent or empty, which is falsy); `list` emits a parent
node and, only when the parent call returned a reference, one child per
back item in order. -/
def createSingleCard (env : Env) (k : Nat) (card : FlashcardData)
    (parentRemId : Option String) : Except Unit (Option String) × Nat × List HostCall :=
  if card.type = "basic" then
    callNode env k (card.front ++ " >> " ++ backToString card.back) parentRemId
  else if card.type = "basic-reverse" then
    callNode env k (card.front ++ " <> " ++ backToString card.back) parentRemId
  else if card.type = "cloze" then
    match card.clozeText with
    | none => (.ok none, k, [])
    | some t =>
      if t = "" then (.ok none, k, [])
      else callNode env k (clozeRewriteS t) parentRemId
  else if card.type = "list" then
    let backItems := match card.back with
      | .l vs => vs
      | .s v => [v]
    let r := callNode env k (card.front ++ " >>>") parentRemId
    match r.1 with
    | .error _ => (.error (), r.2.1, r.2.2)
    | .ok none => (.ok none, r.2.1, r.2.2)
    | .ok (some pid) =>
      let c := listChildren env r.2.1 backItems pid
      ((match c.1 with
        | .error _ => .error ()
        | .ok _ => .ok (some pid)), c.2.1, r.2.2 ++ c.2.2)
  else if card.type = "descriptor" then
    callNode env k (card.front ++ " ;; " ++ backToString card.back) parentRemId
  else
    (.ok none, k, [])
where
  /-- The child-creation loop of `createListCard` (lines 126-128): create
  one node per item under the parent, ignoring per-child results; a thrown
  exception aborts the loop. -/
  listChildren (env : Env) (k : Nat) (items : List String) (pid : String) :
      Except Unit Unit × Nat × List HostCall :=
    match items with
    | [] => (.ok (), k, [])
    | it :: rest =>
      let r := callNode env k it (some pid)
      match r.1 with
      | .error _ => (.error (), r.2.1, r.2.2)
      | .ok _ =>
        let q := listChildren env r.2.1 rest pid
        (q.1, q.2.1, r.2.2 ++ q.2.2)

/-- `createFlashcards` (cardGenerator.ts lines 25-40): render each card in
sequence; a per-card exception is caught and the loop continues; every
successfully created reference is collected.  Total by construction: the
batch never propagates a per-card failure. -/
def createFlashcards (env : Env) (k : Nat) (cards : List FlashcardData)
    (parentRemId : Option String) : List String × Nat × List HostCall :=
  match cards with
  | [] => ([], k, [])
  | c :: rest =>
    let r := createSingleCard env k c parentRemId
    let q := createFlashcards env r.2.1 rest parentRemId
    ((match r.1 with
      | .ok (some id) => id :: q.1
      | _ => q.1), q.2.1, r.2.2 ++ q.2.2)

/-! ### Upstream text validator (`documentParser.ts`) -/

/-- JavaScript `String.prototype.length`: UTF-16 code units (an astral
character counts twice). -/
def jsLength (s : String) : Nat :=
  (s.data.map (fun c => if c.val ≥ 0x10000 then 2 else 1)).sum

/-- The result record of `validateText`. -/
structure ValidationResult where
  valid : Bool
  error : Option String
deriving DecidableEq

/-- `validateText` (documentParser.ts lines 91-111): reject a falsy (empty)
input, then trim and reject when the trimmed length is zero, below 20 or
above 50000 code units. -/
def validateText (text : String) : ValidationResult :=
  if text = "" then ⟨false, some "请提供有效的文本内容"⟩
  else
    let trimmedText := jsTrimS text
    if jsLength trimmedText = 0 then ⟨false, some "文本内容为空"⟩
    else if jsLength trimmedText < 20 then ⟨false, some "文本内容太短，至少需要 20 个字符"⟩
    else if jsLength trimmedText > 50000 then ⟨false, some "文本内容过长，最多支持 50000 个字符"⟩
    else ⟨true, none⟩

/-! ### Specification-side definitions -/

/-- The validity predicate as the specification words it: the element is a
non-null object; its `type` is a string in the closed enumeration; a cloze
element has a string `clozeText` containing the open delimiter (nothing is
required of `front`/`back`); a list element has a string `front` and an
array `back`; any other element has string `front` and `back`. -/
def specValidCard (card : Json) : Prop :=
  ∃ members, card = Json.obj members ∧
    ∃ t, lookupLast members "type" = some (.str t) ∧ t ∈ validTypes ∧
      (t = "cloze" →
        ∃ ct, lookupLast members "clozeText" = some (.str ct) ∧
          containsSubL ct.data openDelim = true) ∧
      (t = "list" →
        (∃ f, lookupLast members "front" = some (.str f)) ∧
        (∃ bs, lookupLast members "back" = some (.arr bs))) ∧
      (t ≠ "cloze" → t ≠ "list" →
        (∃ f, lookupLast members "front" = some (.str f)) ∧
        (∃ b, lookupLast members "back" = some (.str b)))

/-- The shape invariant of normalized cards: the type is in the closed
enumeration; `back` is a list exactly for list cards; `clozeText` is
present exactly for cloze cards and then contains the open delimiter. -/
def GoodCard (c : FlashcardData) : Prop :=
  c.type ∈ validTypes ∧
  (c.type = "list" ↔ ∃ vs, c.back = .l vs) ∧
  (c.type = "cloze" → ∃ t, c.clozeText = some t ∧ containsSubL t.data openDelim = true) ∧
  (c.type ≠ "cloze" → c.clozeText = none)

/-- The per-card results of a batch, in input order (the outcome each
iteration of the `createFlashcards` loop observes). -/
def singleResults (env : Env) (k : Nat) (cards : List FlashcardData)
    (parentRemId : Option String) : List (Except Unit (Option String)) :=
  match cards with
  | [] => []
  | c :: rest =>
    let r := createSingleCard env k c parentRemId
    r.1 :: singleResults env r.2.1 rest parentRemId

/-- Characters that the trailing-comma repair can never touch: anything
other than a comma or JS whitespace. -/
def keepChar (c : Char) : Bool := !(c = ',' || isJsWs c)

/-- The serialized comma-separated tail after a first item. -/
def commaTail : List (List Char) → List Char
  | [] => []
  | x :: t => ',' :: x ++ commaTail t

/-- Fuel needed by the parser for the serialized `back` value. -/
def backNeed : CardBack → Nat
  | .s _ => 1
  | .l vs => vs.length + 2

/-- Fuel needed by the parser for one serialized card. -/
def cardNeed (c : FlashcardData) : Nat := backNeed c.back + 7

/-- Fuel needed by the parser for a serialized card list. -/
def cardsNeed : List FlashcardData → Nat
  | [] => 1
  | c :: rest => cardNeed c + 1 + cardsNeed rest

/-! ## Theorems -/

/-! ### Generic helper lemmas -/

theorem isPrefixOf_append (p w : List Char) : p.isPrefixOf (p ++ w) = true := by
  induction p with
  | nil => simp [List.isPrefixOf]
  | cons c t ih => simp [List.isPrefixOf, ih]

theorem self_mem_tails (l : List Char) : l ∈ l.tails := by
  cases l <;> simp [List.tails]

theorem containsSubL_append (u v w : List Char) :
    containsSubL (u ++ (v ++ w)) v = true := by
  induction u with
  | nil =>
    unfold containsSubL
    rw [List.any_eq_true]
    exact ⟨v ++ w, self_mem_tails _, isPrefixOf_append v w⟩
  | cons c t ih =>
    unfold containsSubL at ih ⊢
    rw [List.cons_append, List.tails_cons, List.any_cons]
    rw [ih]
    simp

theorem jsLength_trim_le (s : String) : jsLength (jsTrimS s) ≤ jsLength s := by
  have hsub : (jsTrimL s.data).Sublist s.data := by
    unfold jsTrimL
    have h1 : (s.data.dropWhile isJsWs).Sublist s.data := List.dropWhile_sublist ..
    have h2 : ((s.data.dropWhile isJsWs).reverse.dropWhile isJsWs).Sublist
        (s.data.dropWhile isJsWs).reverse := List.dropWhile_sublist ..
    have h3 := h2.reverse
    rw [List.reverse_reverse] at h3
    exact h3.trans h1
  exact List.Sublist.sum_le_sum (hsub.map _) (by simp)

/-! ### C1: the response normalizer is total and strict about the top level -/

/-- C1: `parseAIResponse` terminates normally on every input (it is a total
function of this development); when the cleaned payload fails to parse as
JSON the result is the empty list, and when it parses to anything that is
not an array (in particular a single object) the result is also the empty
list — no one-element coercion ever happens. -/
theorem c1_parse_total_strict (s : String) :
    (parsedPayload s = none → parseAIResponse s = []) ∧
    (∀ j, parsedPayload s = some j → (∀ xs, j ≠ Json.arr xs) → parseAIResponse s = []) := by
  constructor
  · intro h
    unfold parseAIResponse
    rw [h]
  · intro j hj hne
    unfold parseAIResponse
    rw [hj]
    cases j with
    | arr xs => exact absurd rfl (hne xs)
    | null => rfl
    | bool b => rfl
    | num l => rfl
    | str v => rfl
    | obj m => rfl

/-- Witness for C1: the payload `"\x7b\x7d"` parses to a top-level object,
and the normalizer yields the empty sequence for it; the unparseable
payload `"["` also yields the empty sequence. -/
theorem c1_parse_total_strict_witness :
    parsedPayload "\x7b\x7d" = some (Json.obj []) ∧
    parseAIResponse "\x7b\x7d" = [] ∧
    parsedPayload "[" = none ∧
    parseAIResponse "[" = [] := by
  refine ⟨rfl, ?_, rfl, ?_⟩
  · exact (c1_parse_total_strict "\x7b\x7d").2 (Json.obj []) rfl
      (fun xs h => Json.noConfusion h)
  · exact (c1_parse_total_strict "[").1 rfl

/-! ### C9: boundaries of the upstream text validator -/

/-- C9 (corrected): a length-19 input is always rejected, and an input
whose **trimmed** length is 20 is accepted.  (The claim's "every input text
of length 20 is valid" is false — `validateText` trims first, see the
counterexample.) -/
theorem c9_validateText_boundary (s : String) :
    (jsLength s = 19 → (validateText s).valid = false) ∧
    (jsLength (jsTrimS s) = 20 → (validateText s).valid = true) := by
  constructor
  · intro h19
    unfold validateText
    have hne : ¬(s = "") := by
      intro he
      rw [he] at h19
      simp [jsLength] at h19
    rw [if_neg hne]
    have hle : jsLength (jsTrimS s) ≤ 19 := h19 ▸ jsLength_trim_le s
    by_cases h0 : jsLength (jsTrimS s) = 0
    · rw [if_pos h0]
    · rw [if_neg h0, if_pos (by omega)]
  · intro h20
    unfold validateText
    have hne : ¬(s = "") := by
      intro he
      rw [he] at h20
      simp [jsTrimS, jsTrimL, jsLength] at h20
    rw [if_neg hne, if_neg (by omega), if_neg (by omega), if_neg (by omega)]

/-- Counterexample for C9 as stated: the 20-space input has length 20 yet
the validator rejects it (it trims before measuring). -/
theorem c9_counterexample :
    jsLength (String.mk (List.replicate 20 ' ')) = 20 ∧
    (validateText (String.mk (List.replicate 20 ' '))).valid = false := by
  constructor <;> decide

/-- Witness for C9: a 19-character input is rejected and an input of
trimmed length 20 is accepted, via the theorem at concrete inputs. -/
theorem c9_validateText_boundary_witness :
    jsLength (String.mk (List.replicate 19 'a')) = 19 ∧
    (validateText (String.mk (List.replicate 19 'a'))).valid = false ∧
    jsLength (jsTrimS (String.mk (List.replicate 20 'a'))) = 20 ∧
    (validateText (String.mk (List.replicate 20 'a'))).valid = true := by
  refine ⟨by decide, ?_, by decide, ?_⟩
  · exact (c9_validateText_boundary _).1 (by decide)
  · exact (c9_validateText_boundary _).2 (by decide)

/-! ### C8: per-card failure isolation in the batch renderer -/

/-- C8: `createFlashcards` always returns (it is total); its reference list
is exactly the successful per-card results in order, so one reference per
successfully created card; a failing card (exception or no reference) is
skipped and processing continues with the rest of the batch, whose outcome
is unaffected; at most one reference per input card is produced. -/
theorem c8_batch_isolation :
    (∀ env k cards parentRemId,
      (createFlashcards env k cards parentRemId).1 =
        (singleResults env k cards parentRemId).filterMap
          (fun r => match r with
            | .ok (some id) => some id
            | _ => none)) ∧
    (∀ env k c cs parentRemId,
      (createSingleCard env k c parentRemId).1 = .error () →
      (createFlashcards env k (c :: cs) parentRemId).1 =
        (createFlashcards env (createSingleCard env k c parentRemId).2.1 cs parentRemId).1) ∧
    (∀ env k cards parentRemId,
      (createFlashcards env k cards parentRemId).1.length ≤ cards.length) := by
  refine ⟨?_, ?_, ?_⟩
  · intro env k cards parentRemId
    induction cards generalizing k with
    | nil => rfl
    | cons c rest ih =>
      simp only [createFlashcards, singleResults, List.filterMap_cons]
      cases h : (createSingleCard env k c parentRemId).1 with
      | error e => simp [ih]
      | ok o => cases o <;> simp [ih]
  · intro env k c cs parentRemId herr
    simp only [createFlashcards]
    rw [herr]
  · intro env k cards parentRemId
    induction cards generalizing k with
    | nil => exact Nat.le_refl 0
    | cons c rest ih =>
      simp only [createFlashcards, List.length_cons]
      cases h : (createSingleCard env k c parentRemId).1 with
      | error e => simpa using Nat.le_succ_of_le (ih _)
      | ok o =>
        cases o with
        | none => simpa using Nat.le_succ_of_le (ih _)
        | some id => simpa using ih _

/-- Witness for C8: with a host that throws on every call, a two-card batch
still returns, skipping the first card and continuing with the second. -/
theorem c8_batch_isolation_witness :
    (createSingleCard (fun _ => .exn) 0 ⟨"basic", "Q", .s "A", none⟩ none).1 = .error () ∧
    (createFlashcards (fun _ => .exn) 0
        [⟨"basic", "Q", .s "A", none⟩, ⟨"basic", "R", .s "B", none⟩] none).1 =
      (createFlashcards (fun _ => .exn)
        (createSingleCard (fun _ => .exn) 0 ⟨"basic", "Q", .s "A", none⟩ none).2.1
        [⟨"basic", "R", .s "B", none⟩] none).1 := by
  refine ⟨rfl, ?_⟩
  exact c8_batch_isolation.2.1 (fun _ => .exn) 0 _ _ none rfl

/-! ### C5: list-card rendering order and abandonment -/

theorem listChildren_trace (env : Env) (items : List String) (pid : String) :
    ∀ k, (∀ i, i < items.length → env (k + i) ≠ .exn) →
    createSingleCard.listChildren env k items pid =
      (.ok (), k + items.length, items.map (fun it => (⟨it, some pid⟩ : HostCall))) := by
  induction items with
  | nil => intro k h; simp [createSingleCard.listChildren]
  | cons it rest ih =>
    intro k h
    have h0 : env k ≠ .exn := by
      have := h 0 (by simp)
      simpa using this
    simp only [createSingleCard.listChildren, callNode]
    cases henv : env k with
    | exn => exact absurd henv h0
    | undef =>
      have := ih (k + 1) (fun i hi => by
        have := h (i + 1) (by simpa using Nat.succ_lt_succ hi)
        simpa [Nat.add_comm, Nat.add_assoc, Nat.add_left_comm] using this)
      rw [this]
      simp [Nat.add_assoc, Nat.add_comm 1 rest.length]
    | ok id =>
      have := ih (k + 1) (fun i hi => by
        have := h (i + 1) (by simpa using Nat.succ_lt_succ hi)
        simpa [Nat.add_comm, Nat.add_assoc, Nat.add_left_comm] using this)
      rw [this]
      simp [Nat.add_assoc, Nat.add_comm 1 rest.length]

/-- C5: rendering a list card first issues one creation call with text
`front ++ " >>>"`; if that call returns no reference the card is abandoned
with no child calls; if it returns a reference `pid` (and no child call
throws), exactly one child call per element of `back` follows, in order,
each under `pid` with the element's literal text — `1 + items.length`
calls in total. -/
theorem c5_list_rendering (env : Env) (k : Nat) (f : String) (items : List String)
    (p : Option String) :
    (env k = .undef →
      createSingleCard env k ⟨"list", f, .l items, none⟩ p =
        (.ok none, k + 1, [⟨f ++ " >>>", p⟩])) ∧
    (∀ pid, env k = .ok pid →
      (∀ i, i < items.length → env (k + 1 + i) ≠ .exn) →
      createSingleCard env k ⟨"list", f, .l items, none⟩ p =
        (.ok (some pid), k + 1 + items.length,
          ⟨f ++ " >>>", p⟩ :: items.map (fun it => ⟨it, some pid⟩))) := by
  constructor
  · intro h
    simp [createSingleCard, callNode, h]
  · intro pid h hch
    have hlc := listChildren_trace env items pid (k + 1) hch
    simp [createSingleCard, callNode, h, hlc, Nat.add_assoc]

/-- Witness for C5: with an always-succeeding host, the three-element list
card produces exactly four calls (parent then A, B, C); with a host that
returns no reference, only the parent call happens. -/
theorem c5_list_rendering_witness :
    createSingleCard (fun _ => .ok "r") 0 ⟨"list", "Q", .l ["A", "B", "C"], none⟩ none =
      (.ok (some "r"), 4,
        [⟨"Q >>>", none⟩, ⟨"A", some "r"⟩, ⟨"B", some "r"⟩, ⟨"C", some "r"⟩]) ∧
    createSingleCard (fun _ => .undef) 0 ⟨"list", "Q", .l ["A", "B", "C"], none⟩ none =
      (.ok none, 1, [⟨"Q >>>", none⟩]) := by
  constructor
  · have := (c5_list_rendering (fun _ => .ok "r") 0 "Q" ["A", "B", "C"] none).2 "r" rfl
      (fun i _ => by simp)
    simpa using this
  · exact (c5_list_rendering (fun _ => .undef) 0 "Q" ["A", "B", "C"] none).1 rfl

/-! ### C4: the cloze numbered-deletion rewrite -/

theorem contentScan_no_close (x : List Char) (after : List Char)
    (hx : ∀ c ∈ x, c ≠ rb ∧ c.val ≠ 10 ∧ c.val ≠ 13 ∧ c.val ≠ 0x2028 ∧ c.val ≠ 0x2029) :
    clozeMatchAt.contentScan (x ++ rb :: rb :: after) = some (x, after) := by
  induction x with
  | nil => simp [clozeMatchAt.contentScan]
  | cons c t ih =>
    have hc := hx c (by simp)
    have ht : ∀ c ∈ t, c ≠ rb ∧ c.val ≠ 10 ∧ c.val ≠ 13 ∧ c.val ≠ 0x2028 ∧ c.val ≠ 0x2029 :=
      fun d hd => hx d (by simp [hd])
    rw [List.cons_append]
    simp only [clozeMatchAt.contentScan]
    rw [if_neg (by simpa using hc.1)]
    rw [if_neg (by simp [hc.2.1, hc.2.2.1, hc.2.2.2.1, hc.2.2.2.2])]
    rw [ih ht]
    rfl

/-- C4: `createClozeCard` emits exactly one creation call whose text is the
cloze text rewritten by the numbered-deletion normalization; the rewrite
turns a whole-string numbered form `\x7b\x7bcN::X\x7d\x7d` (digits `N`,
content `X` free of `\x7d` and line terminators) into the bare
`\x7b\x7bX\x7d\x7d`; in particular the required concrete round-trip holds:
"X contains \x7b\x7bc1::Y\x7d\x7d" renders as "X contains \x7b\x7bY\x7d\x7d". -/
theorem c4_cloze_rewrite :
    (∀ env k (card : FlashcardData) p t, card.type = "cloze" → card.clozeText = some t →
      t ≠ "" →
      createSingleCard env k card p = callNode env k (clozeRewriteS t) p) ∧
    (∀ ds x, ds ≠ [] → (∀ c ∈ ds, isDig c = true) →
      (∀ c ∈ x, c ≠ rb ∧ c.val ≠ 10 ∧ c.val ≠ 13 ∧ c.val ≠ 0x2028 ∧ c.val ≠ 0x2029) →
      clozeGo (lb :: lb :: 'c' :: ds ++ ':' :: ':' :: x ++ [rb, rb]).length
          (lb :: lb :: 'c' :: ds ++ ':' :: ':' :: x ++ [rb, rb]) =
        lb :: lb :: x ++ [rb, rb]) ∧
    clozeRewriteS "X contains \x7b\x7bc1::Y\x7d\x7d" = "X contains \x7b\x7bY\x7d\x7d" := by
  refine ⟨?_, ?_, by decide⟩
  · intro env k card p t hty hct hne
    simp [createSingleCard, hty, hct, hne]
  · intro ds x hds hdig hx
    have htw : ∀ ds2, (∀ c ∈ ds2, isDig c = true) →
        (ds2 ++ ':' :: ':' :: (x ++ [rb, rb])).takeWhile isDig = ds2 := by
      intro ds2
      induction ds2 with
      | nil =>
        intro _
        rw [List.nil_append, List.takeWhile_cons]
        rw [show isDig ':' = false from rfl]
        rfl
      | cons d t ihd =>
        intro h
        have hd : isDig d = true := h d (by simp)
        rw [List.cons_append, List.takeWhile_cons, hd]
        rw [ihd (fun c hc => h c (by simp [hc]))]
        rfl
    have hdrop : (ds ++ ':' :: ':' :: (x ++ [rb, rb])).drop ds.length =
        ':' :: ':' :: (x ++ [rb, rb]) := List.drop_left ds _
    have hmatch : clozeMatchAt (lb :: lb :: 'c' :: (ds ++ ':' :: ':' :: (x ++ [rb, rb]))) =
        some (x, []) := by
      simp only [clozeMatchAt]
      rw [if_pos (by decide)]
      rw [htw ds hdig]
      rw [if_neg (by simpa using hds)]
      rw [hdrop]
      have := contentScan_no_close x [] hx
      simpa using this
    have hnorm : lb :: lb :: 'c' :: ds ++ ':' :: ':' :: x ++ [rb, rb] =
        lb :: lb :: 'c' :: (ds ++ ':' :: ':' :: (x ++ [rb, rb])) := by
      simp [List.cons_append, List.append_assoc]
    rw [hnorm]
    have hlen : (lb :: lb :: 'c' :: (ds ++ ':' :: ':' :: (x ++ [rb, rb]))).length =
        ((lb :: lb :: 'c' :: (ds ++ ':' :: ':' :: (x ++ [rb, rb]))).length - 1) + 1 := by
      simp
    rw [hlen]
    simp only [clozeGo]
    rw [hmatch]
    have hres : lb :: lb :: x ++ [rb, rb] = lb :: lb :: (x ++ [rb, rb]) := by
      simp [List.cons_append]
    rw [hres]
    cases h : (lb :: lb :: 'c' :: (ds ++ ':' :: ':' :: (x ++ [rb, rb]))).length - 1 with
    | zero => simp [clozeGo]
    | succ n => simp [clozeGo]

/-- Witness for C4: the concrete cloze card renders through the rewrite,
and the concrete numbered form rewrites to the bare form. -/
theorem c4_cloze_rewrite_witness :
    createSingleCard (fun _ => .ok "r") 0
        ⟨"cloze", "", .s "", some "X contains \x7b\x7bc1::Y\x7d\x7d"⟩ none =
      callNode (fun _ => .ok "r") 0 (clozeRewriteS "X contains \x7b\x7bc1::Y\x7d\x7d") none ∧
    clozeGo (lb :: lb :: 'c' :: ['1'] ++ ':' :: ':' :: ['Y'] ++ [rb, rb]).length
        (lb :: lb :: 'c' :: ['1'] ++ ':' :: ':' :: ['Y'] ++ [rb, rb]) =
      lb :: lb :: ['Y'] ++ [rb, rb] := by
  constructor
  · exact c4_cloze_rewrite.1 (fun _ => .ok "r") 0 _ none _ rfl rfl (by decide)
  · exact c4_cloze_rewrite.2.1 ['1'] ['Y'] (by decide) (by decide) (by decide)

/-! ### C6: the trailing-comma repair is the only repair -/

theorem rccGo_sublist (close : Char) : ∀ cs,
    (rccGo close none cs).Sublist cs ∧
    ∀ ws, (rccGo close (some ws) cs).Sublist (',' :: (ws.reverse ++ cs)) := by
  intro cs
  induction cs with
  | nil =>
    refine ⟨by simp [rccGo], fun ws => ?_⟩
    simp [rccGo]
  | cons c rest ih =>
    constructor
    · simp only [rccGo]
      by_cases hcomma : c = ','
      · rw [if_pos hcomma]
        subst hcomma
        simpa using ih.2 []
      · rw [if_neg hcomma]
        exact (ih.1).cons₂ c
    · intro ws
      simp only [rccGo]
      by_cases hclose : c = close
      · rw [if_pos hclose]
        subst hclose
        refine ((ih.1).cons₂ c).trans ?_
        exact List.sublist_append_right (',' :: ws.reverse) (c :: rest)
      · rw [if_neg hclose]
        by_cases hws : isJsWs c = true
        · rw [if_pos hws]
          have := ih.2 (c :: ws)
          simpa [List.append_assoc] using this
        · rw [if_neg hws]
          by_cases hcomma : c = ','
          · rw [if_pos hcomma]
            subst hcomma
            have h2 := ih.2 []
            simp only [List.reverse_nil, List.nil_append] at h2
            have : (',' :: ws.reverse ++ rccGo close (some []) rest).Sublist
                (',' :: ws.reverse ++ ',' :: rest) :=
              h2.append_left (',' :: ws.reverse)
            simpa [List.append_assoc] using this
          · rw [if_neg hcomma]
            have : (',' :: ws.reverse ++ c :: rccGo close none rest).Sublist
                (',' :: ws.reverse ++ c :: rest) :=
              ((ih.1).cons₂ c).append_left (',' :: ws.reverse)
            simpa [List.append_assoc] using this

theorem rccGo_filter (close : Char) (hc : keepChar close = true) : ∀ cs,
    (rccGo close none cs).filter keepChar = cs.filter keepChar ∧
    ∀ ws, (∀ w ∈ ws, isJsWs w = true) →
      (rccGo close (some ws) cs).filter keepChar = cs.filter keepChar := by
  have hdropws : ∀ (ws : List Char), (∀ w ∈ ws, isJsWs w = true) →
      ws.reverse.filter keepChar = [] := by
    intro ws hws
    rw [List.filter_eq_nil_iff]
    intro w hw
    have := hws w (List.mem_reverse.mp hw)
    simp [keepChar, this]
  intro cs
  induction cs with
  | nil =>
    refine ⟨rfl, fun ws hws => ?_⟩
    simp only [rccGo, List.filter_cons, List.filter_nil]
    rw [show keepChar ',' = false from rfl]
    simpa using hdropws ws hws
  | cons c rest ih =>
    constructor
    · simp only [rccGo]
      by_cases hcomma : c = ','
      · rw [if_pos hcomma]
        subst hcomma
        rw [ih.2 [] (by simp)]
        simp [List.filter_cons, show keepChar ',' = false from rfl]
      · rw [if_neg hcomma]
        rw [List.filter_cons, List.filter_cons, ih.1]
    · intro ws hws
      simp only [rccGo]
      by_cases hclose : c = close
      · rw [if_pos hclose]
        subst hclose
        rw [List.filter_cons, List.filter_cons, ih.1]
      · rw [if_neg hclose]
        by_cases hwsc : isJsWs c = true
        · rw [if_pos hwsc]
          rw [ih.2 (c :: ws) (by
            intro w hw
            rcases List.mem_cons.mp hw with h | h
            · subst h; exact hwsc
            · exact hws w h)]
          rw [List.filter_cons]
          simp [keepChar, hwsc]
        · rw [if_neg hwsc]
          by_cases hcomma : c = ','
          · rw [if_pos hcomma]
            subst hcomma
            rw [List.filter_append, List.filter_cons]
            rw [show keepChar ',' = false from rfl]
            simp only [ite_false, Bool.false_eq_true]
            rw [hdropws ws hws, ih.2 [] (by simp)]
            simp [List.filter_cons, show keepChar ',' = false from rfl]
          · rw [if_neg hcomma]
            have hkeep : keepChar c = true := by
              simp [keepChar, hcomma, hwsc]
            rw [List.filter_append, List.filter_cons]
            rw [show keepChar ',' = false from rfl]
            simp only [ite_false, Bool.false_eq_true]
            rw [hdropws ws hws, List.filter_cons, List.filter_cons, hkeep, ih.1]
            simp

/-- C6: the cleanup pass is exactly the trailing-comma strip and nothing
else — its output is a subsequence of its input (nothing is inserted or
reordered), and every character other than a comma or whitespace survives
unchanged (only commas, and the whitespace between a stripped comma and its
closing bracket/brace, can be dropped); and the required concrete payload
with a trailing comma inside a fenced block parses to exactly one basic
card with front "Q" and back "A". -/
theorem c6_trailing_comma_repair :
    (∀ cs, (rcc rb (rcc ']' cs)).Sublist cs ∧
      (rcc rb (rcc ']' cs)).filter keepChar = cs.filter keepChar) ∧
    parseAIResponse "```json\n[\x7b\"type\":\"basic\",\"front\":\"Q\",\"back\":\"A\"\x7d,]\n```" =
      [⟨"basic", "Q", .s "A", none⟩] := by
  constructor
  · intro cs
    constructor
    · exact ((rccGo_sublist rb (rcc ']' cs)).1).trans ((rccGo_sublist ']' cs).1)
    · simp only [rcc]
      rw [(rccGo_filter rb (by decide) (rccGo ']' none cs)).1, (rccGo_filter ']' (by decide) cs).1]
  · decide

/-! ### C7: requested types in the compiled prompt -/

theorem joinComma_decompose (t : String) : ∀ (types : List String), t ∈ types →
    ∃ u w, (joinComma types).data = u ++ (t.data ++ w) := by
  intro types
  induction types with
  | nil => intro h; cases h
  | cons a rest ih =>
    intro h
    rcases List.mem_cons.mp h with h | h
    · subst h
      cases rest with
      | nil =>
        refine ⟨"\"".data, "\"".data, ?_⟩
        simp [joinComma, joinWith, String.data_append]
      | cons b r =>
        refine ⟨"\"".data, ("\"" ++ ", " ++ joinComma (b :: r)).data, ?_⟩
        have : joinComma (t :: b :: r) = "\"" ++ t ++ "\"" ++ ", " ++ joinComma (b :: r) := by
          simp [joinComma, joinWith]
        rw [this]
        simp [String.data_append, List.append_assoc]
    · rcases ih h with ⟨u, w, hu⟩
      cases rest with
      | nil => cases h
      | cons b r =>
        refine ⟨("\"" ++ a ++ "\"" ++ ", ").data ++ u, w, ?_⟩
        have : joinComma (a :: b :: r) = "\"" ++ a ++ "\"" ++ ", " ++ joinComma (b :: r) := by
          simp [joinComma, joinWith]
        rw [this]
        simp only [String.data_append, hu]
        simp [String.data_append, List.append_assoc]

/-- C7 (corrected): every requested type appears verbatim in the compiled
prompt; the prompt is exactly the template with the closed-list sentence
enumerating the requested types, quoted, in the order given; and the
per-type descriptive text is one block per occurrence of a requested type
(so duplicates in the request do duplicate the instructional text — the
claim's "not duplicated" part fails, see the counterexample). -/
theorem c7_prompt_enumerates_types (text : String) (types : List String) (n : Nat)
    (hne : types ≠ []) (hv : ∀ t ∈ types, t ∈ validTypes) :
    (∀ t ∈ types, containsSubS (buildPrompt text types n) t = true) ∧
    buildPrompt text types n =
      promptP1 ++ toString n ++ promptP2 ++ getCardTypeDescriptions types ++
        promptP3 ++ joinComma types ++ promptP4 ++ text ∧
    getCardTypeDescriptions types =
      joinWith "\n\n" (types.map (fun t => (descFor t).getD "")) := by
  refine ⟨?_, rfl, ?_⟩
  · intro t ht
    rcases joinComma_decompose t types ht with ⟨u, w, hu⟩
    unfold containsSubS buildPrompt
    have hdata : (promptP1 ++ toString n ++ promptP2 ++ getCardTypeDescriptions types ++
        promptP3 ++ joinComma types ++ promptP4 ++ text).data =
        ((promptP1 ++ toString n ++ promptP2 ++ getCardTypeDescriptions types ++
          promptP3).data ++ u) ++
        (t.data ++ (w ++ (promptP4 ++ text).data)) := by
      simp only [String.data_append, hu]
      simp [List.append_assoc]
    rw [hdata]
    exact containsSubL_append _ _ _
  · have hall : ∀ t ∈ types, (descFor t).isSome = true := by
      intro t ht
      have := hv t ht
      fin_cases this <;> decide
    have : types.filter (fun t => (descFor t).isSome) = types := by
      rw [List.filter_eq_self]
      intro a ha
      exact hall a ha
    unfold getCardTypeDescriptions
    rw [this]

set_option maxRecDepth 8192 in
/-- Counterexample for C7 as stated: requesting `["basic", "basic"]` emits
the basic descriptive block twice — instructional text is duplicated. -/
theorem c7_counterexample :
    buildPrompt "T" ["basic", "basic"] 5 =
      promptP1 ++ "5" ++ promptP2 ++
        ((descFor "basic").getD "" ++ "\n\n" ++ (descFor "basic").getD "") ++
        promptP3 ++ joinComma ["basic", "basic"] ++ promptP4 ++ "T" ∧
    (descFor "basic").getD "" ≠ "" := by
  constructor
  · decide
  · decide

/-- Witness for C7: at a concrete non-empty request, every requested type
occurs verbatim and the decomposition holds. -/
theorem c7_prompt_enumerates_types_witness :
    containsSubS (buildPrompt "Src" ["cloze", "list"] 3) "cloze" = true ∧
    containsSubS (buildPrompt "Src" ["cloze", "list"] 3) "list" = true ∧
    getCardTypeDescriptions ["cloze", "list"] =
      joinWith "\n\n" (["cloze", "list"].map (fun t => (descFor t).getD "")) := by
  have h := c7_prompt_enumerates_types "Src" ["cloze", "list"] 3 (by decide)
    (by intro t ht; fin_cases ht <;> decide)
  exact ⟨h.1 "cloze" (by decide), h.1 "list" (by decide), h.2.2⟩

/-! ### C2: the validity predicate, and dropping invalid elements -/

theorem containsSubL_ne_nil {ct : List Char} (h : containsSubL ct openDelim = true) :
    ct ≠ [] := by
  intro he
  subst he
  exact absurd h (by decide)

theorem parseAIResponse_arr (r : String) (elems : List Json)
    (h : parsedPayload r = some (.arr elems)) :
    parseAIResponse r = (elems.filter isValidCard).map normalizeCard := by
  unfold parseAIResponse
  rw [h]

/-- The element filter of the source agrees with the specification's
validity predicate on every parsed JSON value. -/
theorem isValidCard_iff_spec (card : Json) : isValidCard card = true ↔ specValidCard card := by
  cases card with
  | null => simp [isValidCard, specValidCard]
  | bool b => simp [isValidCard, specValidCard]
  | num l => simp [isValidCard, specValidCard]
  | str s => simp [isValidCard, specValidCard]
  | arr xs => simp [isValidCard, specValidCard, getField]
  | obj members =>
    have hspec : specValidCard (.obj members) ↔
        ∃ t, lookupLast members "type" = some (.str t) ∧ t ∈ validTypes ∧
          (t = "cloze" →
            ∃ ct, lookupLast members "clozeText" = some (.str ct) ∧
              containsSubL ct.data openDelim = true) ∧
          (t = "list" →
            (∃ f, lookupLast members "front" = some (.str f)) ∧
            (∃ bs, lookupLast members "back" = some (.arr bs))) ∧
          (t ≠ "cloze" → t ≠ "list" →
            (∃ f, lookupLast members "front" = some (.str f)) ∧
            (∃ b, lookupLast members "back" = some (.str b))) := by
      unfold specValidCard
      simp [Json.obj.injEq]
    rw [hspec]
    simp only [isValidCard, getField]
    cases hT : lookupLast members "type" with
    | none => simp
    | some j =>
      cases j with
      | null => simp
      | bool b => simp
      | num l => simp
      | arr xs => simp
      | obj ms => simp
      | str t =>
        simp only [Option.some.injEq, Json.str.injEq, exists_eq_left']
        by_cases hmem : t ∈ validTypes
        · rw [if_pos (List.elem_iff.mpr hmem)]
          by_cases hcl : t = "cloze"
          · subst hcl
            rw [if_pos rfl]
            cases hct : lookupLast members "clozeText" with
            | none => simp [hmem]
            | some jc =>
              cases jc with
              | str ct =>
                constructor
                · intro h
                  exact ⟨hmem, fun _ => ⟨ct, rfl, h⟩, fun hli => absurd hli (by decide),
                    fun hne _ => absurd rfl hne⟩
                · intro ⟨_, hc, _, _⟩
                  rcases hc rfl with ⟨ct2, hct2, hcontains⟩
                  cases hct2
                  exact hcontains
              | null => simp [hmem]
              | bool b => simp [hmem]
              | num l => simp [hmem]
              | arr xs => simp [hmem]
              | obj ms => simp [hmem]
          · rw [if_neg hcl]
            by_cases hli : t = "list"
            · subst hli
              rw [if_pos rfl]
              constructor
              · intro h
                have hf := (Bool.and_eq_true _ _).mp h
                refine ⟨hmem, fun hc => absurd hc hcl, fun _ => ⟨?_, ?_⟩,
                  fun _ hne => absurd rfl hne⟩
                · revert hf
                  cases hF : lookupLast members "front" with
                  | none => simp
                  | some jf => cases jf <;> simp
                · revert hf
                  cases hB : lookupLast members "back" with
                  | none => simp
                  | some jb => cases jb <;> simp
              · intro ⟨_, _, hl, _⟩
                rcases hl rfl with ⟨⟨f, hf⟩, ⟨bs, hb⟩⟩
                rw [hf, hb]
                simp
            · rw [if_neg hli]
              constructor
              · intro h
                have hf := (Bool.and_eq_true _ _).mp h
                refine ⟨hmem, fun hc => absurd hc hcl, fun hc => absurd hc hli,
                  fun _ _ => ⟨?_, ?_⟩⟩
                · revert hf
                  cases hF : lookupLast members "front" with
                  | none => simp
                  | some jf => cases jf <;> simp
                · revert hf
                  cases hB : lookupLast members "back" with
                  | none => simp
                  | some jb => cases jb <;> simp
              · intro ⟨_, _, _, ho⟩
                rcases ho hcl hli with ⟨⟨f, hf⟩, ⟨b, hb⟩⟩
                rw [hf, hb]
                simp
        · rw [if_neg (fun hc => hmem (List.elem_iff.mp hc))]
          simp [hmem]

/-- C2: the validity predicate is exactly the one the claim describes, and
every element of the parsed array that fails it is dropped — the result is
precisely the filtered, normalized survivors. -/
theorem c2_validity_filter :
    (∀ card, isValidCard card = true ↔ specValidCard card) ∧
    (∀ s elems, parsedPayload s = some (.arr elems) →
      parseAIResponse s = (elems.filter isValidCard).map normalizeCard) := by
  exact ⟨isValidCard_iff_spec, fun s elems h => parseAIResponse_arr s elems h⟩

/-- Witness for C2: a concrete payload with one valid cloze element and one
invalid element (back is a bare string for a list card) parses to the
filtered, normalized result. -/
theorem c2_validity_filter_witness :
    parsedPayload "[\x7b\"type\":\"cloze\",\"clozeText\":\"a\x7b\x7bb\x7d\x7d\"\x7d,\x7b\"type\":\"list\",\"front\":\"f\",\"back\":\"x\"\x7d]" =
      some (.arr [.obj [("type", .str "cloze"), ("clozeText", .str "a\x7b\x7bb\x7d\x7d")],
                  .obj [("type", .str "list"), ("front", .str "f"), ("back", .str "x")]]) ∧
    parseAIResponse "[\x7b\"type\":\"cloze\",\"clozeText\":\"a\x7b\x7bb\x7d\x7d\"\x7d,\x7b\"type\":\"list\",\"front\":\"f\",\"back\":\"x\"\x7d]" =
      (([.obj [("type", .str "cloze"), ("clozeText", .str "a\x7b\x7bb\x7d\x7d")],
         .obj [("type", .str "list"), ("front", .str "f"), ("back", .str "x")]].filter
           isValidCard).map normalizeCard) := by
  refine ⟨rfl, ?_⟩
  exact c2_validity_filter.2 _ _ rfl

/-! ### C10: the shape invariant of normalized output -/

theorem good_of_valid (j : Json) (h : isValidCard j = true) : GoodCard (normalizeCard j) := by
  rcases (isValidCard_iff_spec j).mp h with
    ⟨members, rfl, t, hT, hmem, hcloze, hlist, hother⟩
  have hnorm : normalizeCard (.obj members) =
      { type := t
        front := jsOrEmpty (lookupLast members "front")
        back :=
          if t = "list" then
            .l (match lookupLast members "back" with
                | some (.arr xs) => xs.map jsString
                | _ => [])
          else .s (jsOrEmpty (lookupLast members "back"))
        clozeText :=
          if t = "cloze" then
            match lookupLast members "clozeText" with
            | some ct => if jsTruthy ct then some (jsString ct) else none
            | none => none
          else none } := by
    unfold normalizeCard
    simp only [getField, hT]
  rw [hnorm]
  refine ⟨hmem, ?_, ?_, ?_⟩
  · constructor
    · intro hty
      rw [if_pos hty]
      exact ⟨_, rfl⟩
    · intro ⟨vs, hvs⟩
      by_cases hli : t = "list"
      · exact hli
      · rw [if_neg hli] at hvs
        cases hvs
  · intro hty
    rw [if_pos hty]
    rcases hcloze hty with ⟨ct, hct, hcontains⟩
    rw [hct]
    have hne : ct ≠ "" := by
      intro he
      subst he
      exact containsSubL_ne_nil hcontains rfl
    refine ⟨ct, ?_, ?_⟩
    · simp [jsTruthy, jsString, hne]
    · simpa [jsString] using hcontains
  · intro hty
    rw [if_neg hty]

theorem parse_good (s : String) (c : FlashcardData) (hc : c ∈ parseAIResponse s) :
    GoodCard c := by
  unfold parseAIResponse at hc
  cases hp : parsedPayload s with
  | none => rw [hp] at hc; cases hc
  | some j =>
    rw [hp] at hc
    cases j with
    | arr elems =>
      rcases List.mem_map.mp hc with ⟨je, hje, rfl⟩
      exact good_of_valid je (List.mem_filter.mp hje).2
    | null => cases hc
    | bool b => cases hc
    | num l => cases hc
    | str v => cases hc
    | obj ms => cases hc

/-- C10: every card produced by `parseAIResponse` satisfies the shape
invariant — `back` is a list of texts exactly when the type is `list` (and
a single text otherwise; `front` is always a text by the record type);
`clozeText` is present exactly on cloze cards, where it contains the open
delimiter; a `clozeText` supplied on a non-cloze source element is
discarded. -/
theorem c10_shape_invariant (s : String) (c : FlashcardData) (hc : c ∈ parseAIResponse s) :
    (c.type = "list" ↔ ∃ vs, c.back = .l vs) ∧
    (c.type = "cloze" → ∃ t, c.clozeText = some t ∧ containsSubL t.data openDelim = true) ∧
    (c.type ≠ "cloze" → c.clozeText = none) := by
  have h := parse_good s c hc
  exact ⟨h.2.1, h.2.2.1, h.2.2.2⟩

/-- Witness for C10: a basic element carrying a stray `clozeText` keeps no
`clozeText` after normalization, and a cloze element keeps its delimited
text. -/
theorem c10_shape_invariant_witness :
    (⟨"basic", "f", .s "b", none⟩ : FlashcardData) ∈
      parseAIResponse "[\x7b\"type\":\"basic\",\"front\":\"f\",\"back\":\"b\",\"clozeText\":\"zz\"\x7d]" ∧
    (⟨"basic", "f", .s "b", none⟩ : FlashcardData).clozeText = none ∧
    ((⟨"basic", "f", .s "b", none⟩ : FlashcardData).type = "list" ↔
      ∃ vs, (⟨"basic", "f", .s "b", none⟩ : FlashcardData).back = .l vs) := by
  refine ⟨by decide, ?_, ?_⟩
  · exact (c10_shape_invariant
      "[\x7b\"type\":\"basic\",\"front\":\"f\",\"back\":\"b\",\"clozeText\":\"zz\"\x7d]"
      ⟨"basic", "f", .s "b", none⟩ (by decide)).2.2 (by decide)
  · exact (c10_shape_invariant
      "[\x7b\"type\":\"basic\",\"front\":\"f\",\"back\":\"b\",\"clozeText\":\"zz\"\x7d]"
      ⟨"basic", "f", .s "b", none⟩ (by decide)).1

/-! ### C3: parser round trip on serialized canonical cards -/

theorem hexVal_hexDigit : ∀ k, k < 16 →
    hexVal (hexDigitChar k) = some k := by decide

theorem parseStringBody_escape (l : List Char) (rest : List Char) :
    parseStringBody ((l.map escChar).flatten ++ '"' :: rest) = some (l, rest) := by
  induction l with
  | nil => rfl
  | cons c t ih =>
    rw [List.map_cons, List.flatten_cons, List.append_assoc]
    by_cases h1 : c = '"'
    · subst h1
      rw [show escChar '"' = ['\\', '"'] from rfl]
      have e : parseStringBody ('\\' :: '"' :: ((t.map escChar).flatten ++ '"' :: rest)) =
          (parseStringBody ((t.map escChar).flatten ++ '"' :: rest)).map
            (fun p => ('"' :: p.1, p.2)) := rfl
      rw [List.cons_append, List.cons_append, List.nil_append, e, ih]
      rfl
    · by_cases h2 : c = '\\'
      · subst h2
        rw [show escChar '\\' = ['\\', '\\'] from rfl]
        have e : parseStringBody ('\\' :: '\\' :: ((t.map escChar).flatten ++ '"' :: rest)) =
            (parseStringBody ((t.map escChar).flatten ++ '"' :: rest)).map
              (fun p => ('\\' :: p.1, p.2)) := rfl
        rw [List.cons_append, List.cons_append, List.nil_append, e, ih]
        rfl
      · by_cases h3 : c.val = 8
        · have hc : c = Char.ofNat 8 := Char.ext (by rw [h3]; rfl)
          subst hc
          rw [show escChar (Char.ofNat 8) = ['\\', 'b'] from rfl]
          have e : parseStringBody ('\\' :: 'b' :: ((t.map escChar).flatten ++ '"' :: rest)) =
              (parseStringBody ((t.map escChar).flatten ++ '"' :: rest)).map
                (fun p => (Char.ofNat 8 :: p.1, p.2)) := rfl
          rw [List.cons_append, List.cons_append, List.nil_append, e, ih]
          rfl
        · by_cases h4 : c.val = 9
          · have hc : c = '\t' := Char.ext (by rw [h4]; rfl)
            subst hc
            rw [show escChar '\t' = ['\\', 't'] from rfl]
            have e : parseStringBody ('\\' :: 't' :: ((t.map escChar).flatten ++ '"' :: rest)) =
                (parseStringBody ((t.map escChar).flatten ++ '"' :: rest)).map
                  (fun p => ('\t' :: p.1, p.2)) := rfl
            rw [List.cons_append, List.cons_append, List.nil_append, e, ih]
            rfl
          · by_cases h5 : c.val = 10
            · have hc : c = '\n' := Char.ext (by rw [h5]; rfl)
              subst hc
              rw [show escChar '\n' = ['\\', 'n'] from rfl]
              have e : parseStringBody
                  ('\\' :: 'n' :: ((t.map escChar).flatten ++ '"' :: rest)) =
                  (parseStringBody ((t.map escChar).flatten ++ '"' :: rest)).map
                    (fun p => ('\n' :: p.1, p.2)) := rfl
              rw [List.cons_append, List.cons_append, List.nil_append, e, ih]
              rfl
            · by_cases h6 : c.val = 12
              · have hc : c = Char.ofNat 12 := Char.ext (by rw [h6]; rfl)
                subst hc
                rw [show escChar (Char.ofNat 12) = ['\\', 'f'] from rfl]
                have e : parseStringBody
                    ('\\' :: 'f' :: ((t.map escChar).flatten ++ '"' :: rest)) =
                    (parseStringBody ((t.map escChar).flatten ++ '"' :: rest)).map
                      (fun p => (Char.ofNat 12 :: p.1, p.2)) := rfl
                rw [List.cons_append, List.cons_append, List.nil_append, e, ih]
                rfl
              · by_cases h7 : c.val = 13
                · have hc : c = Char.ofNat 13 := Char.ext (by rw [h7]; rfl)
                  subst hc
                  rw [show escChar (Char.ofNat 13) = ['\\', 'r'] from rfl]
                  have e : parseStringBody
                      ('\\' :: 'r' :: ((t.map escChar).flatten ++ '"' :: rest)) =
                      (parseStringBody ((t.map escChar).flatten ++ '"' :: rest)).map
                        (fun p => (Char.ofNat 13 :: p.1, p.2)) := rfl
                  rw [List.cons_append, List.cons_append, List.nil_append, e, ih]
                  rfl
                · by_cases h8 : c.val < 32
                  · have hesc : escChar c = ['\\', 'u', '0', '0',
                        if c.toNat / 16 = 1 then '1' else '0',
                        hexDigitChar (c.toNat % 16)] := by
                      unfold escChar
                      rw [if_neg h1, if_neg h2, if_neg h3, if_neg h4, if_neg h5,
                        if_neg h6, if_neg h7, if_pos h8]
                    rw [hesc]
                    have hlt : c.toNat < 32 := h8
                    have hv1 : hexVal (if c.toNat / 16 = 1 then '1' else '0') =
                        some (c.toNat / 16) := by
                      by_cases hd : c.toNat / 16 = 1
                      · rw [if_pos hd, hd]; rfl
                      · rw [if_neg hd]
                        have : c.toNat / 16 = 0 := by omega
                        rw [this]; rfl
                    have hv2 : hexVal (hexDigitChar (c.toNat % 16)) =
                        some (c.toNat % 16) := hexVal_hexDigit _ (by omega)
                    have hv4 : hexVal4 '0' '0' (if c.toNat / 16 = 1 then '1' else '0')
                        (hexDigitChar (c.toNat % 16)) = some c.toNat := by
                      unfold hexVal4
                      rw [hv1, hv2]
                      show some (((0 * 16 + 0) * 16 + c.toNat / 16) * 16 + c.toNat % 16)
                        = some c.toNat
                      congr 1
                      omega
                    have e : parseStringBody
                        ('\\' :: 'u' :: '0' :: '0' ::
                          (if c.toNat / 16 = 1 then '1' else '0') ::
                          hexDigitChar (c.toNat % 16) ::
                          ((t.map escChar).flatten ++ '"' :: rest)) =
                        (hexVal4 '0' '0' (if c.toNat / 16 = 1 then '1' else '0')
                          (hexDigitChar (c.toNat % 16))).bind (fun n =>
                          (parseStringBody ((t.map escChar).flatten ++ '"' :: rest)).map
                            (fun p =>
                              ((if 0xd800 ≤ n && n < 0xe000 then Char.ofNat 0xfffd
                                else Char.ofNat n) :: p.1, p.2))) := rfl
                    simp only [List.cons_append, List.nil_append]
                    rw [e, hv4]
                    rw [Option.some_bind]
                    rw [ih]
                    rw [if_neg (by
                      simp only [Bool.and_eq_true, decide_eq_true_eq, not_and]
                      intro hge
                      omega)]
                    rw [Char.ofNat_toNat]
                    rfl
                  · have hesc : escChar c = [c] := by
                      unfold escChar
                      rw [if_neg h1, if_neg h2, if_neg h3, if_neg h4, if_neg h5,
                        if_neg h6, if_neg h7, if_neg h8]
                    rw [hesc]
                    simp only [List.cons_append, List.nil_append]
                    rw [parseStringBody]
                    rw [if_neg h1, if_neg h2, if_neg (by simpa using h8)]
                    rw [ih]
                    rfl

theorem strLit_eq (s : String) (rest : List Char) :
    strLitL s ++ rest = '"' :: ((s.data.map escChar).flatten ++ '"' :: rest) := by
  simp [strLitL]

theorem parseP_val_quote (s : String) (rest : List Char) (f : Nat) :
    parseP (f + 1) .val ('"' :: ((s.data.map escChar).flatten ++ '"' :: rest)) =
      some (.v (.str s), rest) := by
  have e : ∀ X, parseP (f + 1) .val ('"' :: X) =
      (parseStringBody X).map (fun p => (.v (.str (String.mk p.1)), p.2)) := fun X => rfl
  rw [e, parseStringBody_escape]
  rfl

theorem parseP_strLit (s : String) (rest : List Char) (f : Nat) :
    parseP (f + 1) .val (strLitL s ++ rest) = some (.v (.str s), rest) := by
  rw [strLit_eq]
  exact parseP_val_quote s rest f

theorem joinCommaL_cons : ∀ (xs : List (List Char)) (x : List Char),
    joinCommaL (x :: xs) = x ++ commaTail xs := by
  intro xs
  induction xs with
  | nil => intro x; simp [joinCommaL, commaTail]
  | cons y t ih =>
    intro x
    have e : joinCommaL (x :: y :: t) = x ++ ',' :: joinCommaL (y :: t) := rfl
    rw [e, ih y]
    simp [commaTail, List.cons_append]

theorem parseP_elemsRest_strs (vs : List String) (rest : List Char) :
    ∀ f, vs.length + 1 ≤ f →
    parseP f .elemsRest (commaTail (vs.map strLitL) ++ ']' :: rest) =
      some (.list (vs.map .str), rest) := by
  induction vs with
  | nil =>
    intro f hf
    obtain ⟨g, rfl⟩ : ∃ g, f = g + 1 := ⟨f - 1, by omega⟩
    show parseP (g + 1) .elemsRest (']' :: rest) = some (.list [], rest)
    rfl
  | cons v t ih =>
    intro f hf
    simp only [List.length_cons] at hf
    obtain ⟨g2, rfl⟩ : ∃ g2, f = g2 + 1 + 1 := ⟨f - 2, by omega⟩
    have hl : commaTail ((v :: t).map strLitL) ++ ']' :: rest =
        ',' :: (strLitL v ++ (commaTail (t.map strLitL) ++ ']' :: rest)) := by
      simp [commaTail, List.cons_append, List.append_assoc]
    rw [hl]
    have e : ∀ X, parseP (g2 + 1 + 1) .elemsRest (',' :: X) =
        (parseP (g2 + 1) .val X).bind (fun p =>
          match p.1 with
          | .v j =>
            (parseP (g2 + 1) .elemsRest p.2).bind (fun q =>
              match q.1 with
              | .list js => some (.list (j :: js), q.2)
              | _ => none)
          | _ => none) := fun X => rfl
    rw [e, parseP_strLit v _ g2, Option.some_bind]
    rw [ih (g2 + 1) (by omega)]
    rfl

theorem parseP_elems_strs (vs : List String) (rest : List Char) :
    ∀ f, vs.length + 1 ≤ f →
    parseP f .elems (joinCommaL (vs.map strLitL) ++ ']' :: rest) =
      some (.list (vs.map .str), rest) := by
  cases vs with
  | nil =>
    intro f hf
    obtain ⟨g, rfl⟩ : ∃ g, f = g + 1 := ⟨f - 1, by omega⟩
    show parseP (g + 1) .elems (']' :: rest) = some (.list [], rest)
    rfl
  | cons v t =>
    intro f hf
    simp only [List.length_cons] at hf
    obtain ⟨g2, rfl⟩ : ∃ g2, f = g2 + 1 + 1 := ⟨f - 2, by omega⟩
    have hl : joinCommaL ((v :: t).map strLitL) ++ ']' :: rest =
        '"' :: ((v.data.map escChar).flatten ++ '"' ::
          (commaTail (t.map strLitL) ++ ']' :: rest)) := by
      rw [List.map_cons, joinCommaL_cons]
      rw [List.append_assoc, strLit_eq]
    rw [hl]
    have e : ∀ X, parseP (g2 + 1 + 1) .elems ('"' :: X) =
        (parseP (g2 + 1) .val ('"' :: X)).bind (fun p =>
          match p.1 with
          | .v j =>
            (parseP (g2 + 1) .elemsRest p.2).bind (fun q =>
              match q.1 with
              | .list js => some (.list (j :: js), q.2)
              | _ => none)
          | _ => none) := fun X => rfl
    rw [e, parseP_val_quote v _ g2, Option.some_bind]
    rw [parseP_elemsRest_strs t rest (g2 + 1) (by omega)]
    rfl

theorem parseP_backVal (b : CardBack) (rest : List Char) :
    ∀ f, backNeed b ≤ f →
    parseP f .val (backStrL b ++ rest) = some (.v (backJson b), rest) := by
  cases b with
  | s v =>
    intro f hf
    obtain ⟨g, rfl⟩ : ∃ g, f = g + 1 := ⟨f - 1, by
      simp only [backNeed] at hf
      omega⟩
    exact parseP_strLit v rest g
  | l vs =>
    intro f hf
    simp only [backNeed] at hf
    obtain ⟨g, rfl⟩ : ∃ g, f = g + 1 := ⟨f - 1, by omega⟩
    have hb : backStrL (.l vs) ++ rest =
        '[' :: (joinCommaL (vs.map strLitL) ++ ']' :: rest) := by
      simp [backStrL, List.cons_append, List.append_assoc]
    rw [hb]
    have e : ∀ X, parseP (g + 1) .val ('[' :: X) =
        (parseP g .elems X).bind (fun p =>
          match p.1 with
          | .list js => some (.v (.arr js), p.2)
          | _ => none) := fun X => rfl
    rw [e]
    rw [parseP_elems_strs vs rest g (by omega)]
    rfl

theorem parseP_memberStep (key : String) (g : Nat) (X : List Char) :
    parseP (g + 1) .members (strLitL key ++ ':' :: X) =
      (parseP g .val X).bind (fun p =>
        match p.1 with
        | .v j =>
          (parseP g .membersRest p.2).bind (fun q =>
            match q.1 with
            | .fields fs => some (.fields ((key, j) :: fs), q.2)
            | _ => none)
        | _ => none) := by
  rw [strLit_eq]
  have e : ∀ Y, parseP (g + 1) .members ('"' :: Y) =
      (parseStringBody Y).bind (fun kp =>
        match skipWs kp.2 with
        | ':' :: rest2 =>
          (parseP g .val rest2).bind (fun p =>
            match p.1 with
            | .v j =>
              (parseP g .membersRest p.2).bind (fun q =>
                match q.1 with
                | .fields fs => some (.fields ((String.mk kp.1, j) :: fs), q.2)
                | _ => none)
            | _ => none)
        | _ => none) := fun Y => rfl
  rw [e, parseStringBody_escape key.data (':' :: X), Option.some_bind]
  rfl

theorem parseP_memberRestStep (key : String) (g : Nat) (X : List Char) :
    parseP (g + 1) .membersRest (',' :: (strLitL key ++ ':' :: X)) =
      (parseP g .val X).bind (fun p =>
        match p.1 with
        | .v j =>
          (parseP g .membersRest p.2).bind (fun q =>
            match q.1 with
            | .fields fs => some (.fields ((key, j) :: fs), q.2)
            | _ => none)
        | _ => none) := by
  rw [strLit_eq]
  have e : ∀ Y, parseP (g + 1) .membersRest (',' :: '"' :: Y) =
      (parseStringBody Y).bind (fun kp =>
        match skipWs kp.2 with
        | ':' :: rest2 =>
          (parseP g .val rest2).bind (fun p =>
            match p.1 with
            | .v j =>
              (parseP g .membersRest p.2).bind (fun q =>
                match q.1 with
                | .fields fs => some (.fields ((String.mk kp.1, j) :: fs), q.2)
                | _ => none)
            | _ => none)
        | _ => none) := fun Y => rfl
  rw [e, parseStringBody_escape key.data (':' :: X), Option.some_bind]
  rfl

theorem parseP_membersRest_close (g : Nat) (X : List Char) :
    parseP (g + 1) .membersRest (rb :: X) = some (.fields [], X) := rfl

theorem parseP_cardVal (c : FlashcardData) (rest : List Char) :
    ∀ f, cardNeed c ≤ f →
    parseP f .val (cardStrL c ++ rest) = some (.v (cardToJson c), rest) := by
  obtain ⟨ty, fr, bk, cz⟩ := c
  intro f hf
  have hbn : backNeed bk + 7 ≤ f := hf
  cases cz with
  | none =>
    obtain ⟨g, rfl⟩ : ∃ g, f = g + 6 := ⟨f - 6, by omega⟩
    have hl : cardStrL ⟨ty, fr, bk, none⟩ ++ rest =
        lb :: (strLitL "type" ++ ':' :: (strLitL ty ++ (',' ::
          (strLitL "front" ++ ':' :: (strLitL fr ++ (',' ::
          (strLitL "back" ++ ':' :: (backStrL bk ++ rb :: rest)))))))) := by
      simp only [cardStrL, List.cons_append, List.append_assoc, List.nil_append]
    rw [hl]
    have eV : ∀ X, parseP (g + 5 + 1) .val (lb :: X) =
        (parseP (g + 5) .members X).bind (fun p =>
          match p.1 with
          | .fields fs => some (.v (.obj fs), p.2)
          | _ => none) := fun X => rfl
    rw [show g + 6 = g + 5 + 1 from rfl, eV]
    rw [show g + 5 = g + 4 + 1 from rfl, parseP_memberStep "type" (g + 4)]
    rw [show g + 4 = g + 3 + 1 from rfl, parseP_strLit ty _ (g + 3), Option.some_bind]
    rw [parseP_memberRestStep "front" (g + 3)]
    rw [show g + 3 = g + 2 + 1 from rfl, parseP_strLit fr _ (g + 2), Option.some_bind]
    rw [parseP_memberRestStep "back" (g + 2)]
    rw [parseP_backVal bk _ (g + 2) (by omega), Option.some_bind]
    rw [show g + 2 = g + 1 + 1 from rfl, parseP_membersRest_close (g + 1) rest]
    rfl
  | some t =>
    obtain ⟨g, rfl⟩ : ∃ g, f = g + 7 := ⟨f - 7, by omega⟩
    have hl : cardStrL ⟨ty, fr, bk, some t⟩ ++ rest =
        lb :: (strLitL "type" ++ ':' :: (strLitL ty ++ (',' ::
          (strLitL "front" ++ ':' :: (strLitL fr ++ (',' ::
          (strLitL "back" ++ ':' :: (backStrL bk ++ ',' ::
          (strLitL "clozeText" ++ ':' :: (strLitL t ++ rb :: rest)))))))))) := by
      simp only [cardStrL, List.cons_append, List.append_assoc, List.nil_append]
    rw [hl]
    have eV : ∀ X, parseP (g + 6 + 1) .val (lb :: X) =
        (parseP (g + 6) .members X).bind (fun p =>
          match p.1 with
          | .fields fs => some (.v (.obj fs), p.2)
          | _ => none) := fun X => rfl
    rw [show g + 7 = g + 6 + 1 from rfl, eV]
    rw [show g + 6 = g + 5 + 1 from rfl, parseP_memberStep "type" (g + 5)]
    rw [show g + 5 = g + 4 + 1 from rfl, parseP_strLit ty _ (g + 4), Option.some_bind]
    rw [parseP_memberRestStep "front" (g + 4)]
    rw [show g + 4 = g + 3 + 1 from rfl, parseP_strLit fr _ (g + 3), Option.some_bind]
    rw [parseP_memberRestStep "back" (g + 3)]
    rw [parseP_backVal bk _ (g + 3) (by omega), Option.some_bind]
    rw [parseP_memberRestStep "clozeText" (g + 2)]
    rw [show g + 2 = g + 1 + 1 from rfl, parseP_strLit t _ (g + 1), Option.some_bind]
    rfl

theorem cardsNeed_pos (cards : List FlashcardData) : 1 ≤ cardsNeed cards := by
  cases cards with
  | nil => exact Nat.le_refl 1
  | cons c t => simp [cardsNeed]; omega

theorem parseP_elemsRest_cards (cards : List FlashcardData) (rest : List Char) :
    ∀ f, cardsNeed cards ≤ f →
    parseP f .elemsRest (commaTail (cards.map cardStrL) ++ ']' :: rest) =
      some (.list (cards.map cardToJson), rest) := by
  induction cards with
  | nil =>
    intro f hf
    obtain ⟨g, rfl⟩ : ∃ g, f = g + 1 := ⟨f - 1, by simp [cardsNeed] at hf; omega⟩
    show parseP (g + 1) .elemsRest (']' :: rest) = some (.list [], rest)
    rfl
  | cons c t ih =>
    intro f hf
    simp only [cardsNeed] at hf
    have ht := cardsNeed_pos t
    obtain ⟨g2, rfl⟩ : ∃ g2, f = g2 + 1 + 1 := ⟨f - 2, by omega⟩
    have hl : commaTail ((c :: t).map cardStrL) ++ ']' :: rest =
        ',' :: (cardStrL c ++ (commaTail (t.map cardStrL) ++ ']' :: rest)) := by
      simp [commaTail, List.cons_append, List.append_assoc]
    rw [hl]
    have e : ∀ X, parseP (g2 + 1 + 1) .elemsRest (',' :: X) =
        (parseP (g2 + 1) .val X).bind (fun p =>
          match p.1 with
          | .v j =>
            (parseP (g2 + 1) .elemsRest p.2).bind (fun q =>
              match q.1 with
              | .list js => some (.list (j :: js), q.2)
              | _ => none)
          | _ => none) := fun X => rfl
    rw [e, parseP_cardVal c _ (g2 + 1) (by omega), Option.some_bind]
    rw [ih (g2 + 1) (by omega)]
    rfl

theorem parseP_elems_cards (cards : List FlashcardData) (rest : List Char) :
    ∀ f, cardsNeed cards ≤ f →
    parseP f .elems (joinCommaL (cards.map cardStrL) ++ ']' :: rest) =
      some (.list (cards.map cardToJson), rest) := by
  cases cards with
  | nil =>
    intro f hf
    obtain ⟨g, rfl⟩ : ∃ g, f = g + 1 := ⟨f - 1, by simp [cardsNeed] at hf; omega⟩
    show parseP (g + 1) .elems (']' :: rest) = some (.list [], rest)
    rfl
  | cons c t =>
    intro f hf
    simp only [cardsNeed] at hf
    have ht := cardsNeed_pos t
    obtain ⟨g2, rfl⟩ : ∃ g2, f = g2 + 1 + 1 := ⟨f - 2, by omega⟩
    have hl : joinCommaL ((c :: t).map cardStrL) ++ ']' :: rest =
        cardStrL c ++ (commaTail (t.map cardStrL) ++ ']' :: rest) := by
      rw [List.map_cons, joinCommaL_cons, List.append_assoc]
    rw [hl]
    -- the elems mode hands the whole remaining input to the value parser
    have hcard : cardStrL c ++ (commaTail (t.map cardStrL) ++ ']' :: rest) =
        lb :: (cardStrTail c ++ (commaTail (t.map cardStrL) ++ ']' :: rest)) := by
      simp [cardStrL, cardStrTail, List.cons_append, List.append_assoc]
    rw [hcard]
    have e : ∀ X, parseP (g2 + 1 + 1) .elems (lb :: X) =
        (parseP (g2 + 1) .val (lb :: X)).bind (fun p =>
          match p.1 with
          | .v j =>
            (parseP (g2 + 1) .elemsRest p.2).bind (fun q =>
              match q.1 with
              | .list js => some (.list (j :: js), q.2)
              | _ => none)
          | _ => none) := fun X => rfl
    rw [e, ← hcard, parseP_cardVal c _ (g2 + 1) (by omega), Option.some_bind]
    rw [parseP_elemsRest_cards t rest (g2 + 1) (by omega)]
    rfl

theorem strLitL_length (s : String) : 2 ≤ (strLitL s).length := by
  simp [strLitL]

theorem vslen_le_commaTail (t : List String) :
    t.length ≤ (commaTail (t.map strLitL)).length := by
  induction t with
  | nil => simp [commaTail]
  | cons v r ih =>
    simp only [List.map_cons, commaTail, List.length_cons, List.length_append]
    omega

theorem vslen_le_join (vs : List String) :
    vs.length ≤ (joinCommaL (vs.map strLitL)).length := by
  cases vs with
  | nil => simp [joinCommaL]
  | cons v t =>
    rw [List.map_cons, joinCommaL_cons]
    have h1 := strLitL_length v
    have h2 := vslen_le_commaTail t
    simp only [List.length_cons, List.length_append]
    omega

theorem backNeed_le (b : CardBack) : backNeed b ≤ (backStrL b).length := by
  cases b with
  | s v =>
    have := strLitL_length v
    simp only [backNeed, backStrL]
    omega
  | l vs =>
    have := vslen_le_join vs
    simp only [backNeed, backStrL, List.length_append, List.length_cons]
    omega

theorem cardNeed_le (c : FlashcardData) : cardNeed c + 1 ≤ (cardStrL c).length := by
  obtain ⟨ty, fr, bk, cz⟩ := c
  have hb := backNeed_le bk
  have h1 := strLitL_length ty
  have h2 := strLitL_length fr
  cases cz with
  | none =>
    simp only [cardNeed, cardStrL, List.length_cons, List.length_append,
      List.length_nil]
    simp only [show (strLitL "type").length = 6 from rfl,
      show (strLitL "front").length = 7 from rfl,
      show (strLitL "back").length = 6 from rfl]
    omega
  | some t =>
    have h3 := strLitL_length t
    simp only [cardNeed, cardStrL, List.length_cons, List.length_append,
      List.length_nil]
    simp only [show (strLitL "type").length = 6 from rfl,
      show (strLitL "front").length = 7 from rfl,
      show (strLitL "back").length = 6 from rfl,
      show (strLitL "clozeText").length = 11 from rfl]
    omega

theorem cardsNeed_le_commaTail (t : List FlashcardData) :
    cardsNeed t ≤ (commaTail (t.map cardStrL)).length + 1 := by
  induction t with
  | nil => simp [cardsNeed, commaTail]
  | cons c r ih =>
    have hc := cardNeed_le c
    simp only [cardsNeed, List.map_cons, commaTail, List.length_cons,
      List.length_append]
    omega

theorem cardsNeed_le_join (cards : List FlashcardData) :
    cardsNeed cards ≤ (joinCommaL (cards.map cardStrL)).length + 1 := by
  cases cards with
  | nil => simp [cardsNeed, joinCommaL]
  | cons c t =>
    have hc := cardNeed_le c
    have ht := cardsNeed_le_commaTail t
    rw [List.map_cons, joinCommaL_cons]
    simp only [cardsNeed, List.length_append]
    omega

theorem parse_stringifyCards (cards : List FlashcardData) :
    parseJsonTopL (stringifyCards cards).data = some (.arr (cards.map cardToJson)) := by
  have hdata : (stringifyCards cards).data =
      '[' :: (joinCommaL (cards.map cardStrL) ++ ']' :: []) := by
    simp [stringifyCards, List.cons_append, List.append_assoc]
  unfold parseJsonTopL
  rw [hdata]
  have hlen : (('[' :: (joinCommaL (cards.map cardStrL) ++ ']' :: [])).length) =
      (joinCommaL (cards.map cardStrL)).length + 2 := by
    simp
  rw [hlen]
  have e : ∀ X g, parseP (g + 1) .val ('[' :: X) =
      (parseP g .elems X).bind (fun p =>
        match p.1 with
        | .list js => some (.v (.arr js), p.2)
        | _ => none) := fun X g => rfl
  rw [show 2 * ((joinCommaL (cards.map cardStrL)).length + 2) + 2 =
      (2 * (joinCommaL (cards.map cardStrL)).length + 5) + 1 from by omega]
  rw [e]
  rw [parseP_elems_cards cards [] _ (by
    have := cardsNeed_le_join cards
    omega)]
  rfl

theorem jsOrEmpty_str (f : String) : jsOrEmpty (some (.str f)) = f := by
  by_cases h : f = "" <;> simp [jsOrEmpty, jsTruthy, jsString, h]

theorem map_str_jsString (vs : List String) : (vs.map Json.str).map jsString = vs := by
  induction vs with
  | nil => rfl
  | cons v t ih => simp only [List.map_cons, ih]; rfl

theorem valid_cardToJson (c : FlashcardData) (h : GoodCard c) :
    isValidCard (cardToJson c) = true := by
  obtain ⟨ty, fr, bk, cz⟩ := c
  have h1 : ty ∈ validTypes := h.1
  cases cz with
  | none =>
    simp only [validTypes, List.mem_cons, List.mem_singleton, List.not_mem_nil,
      or_false] at h1
    rcases h1 with rfl | rfl | rfl | rfl | rfl
    · cases bk with
      | s v => rfl
      | l vs => exact absurd (h.2.1.mpr ⟨vs, rfl⟩) (by simp)
    · cases bk with
      | s v => rfl
      | l vs => exact absurd (h.2.1.mpr ⟨vs, rfl⟩) (by simp)
    · rcases h.2.2.1 rfl with ⟨t, ht, _⟩
      cases ht
    · cases bk with
      | s v => exact absurd (h.2.1.mp rfl) (by simp)
      | l vs => rfl
    · cases bk with
      | s v => rfl
      | l vs => exact absurd (h.2.1.mpr ⟨vs, rfl⟩) (by simp)
  | some t =>
    have hty : ty = "cloze" := by
      by_contra hne
      exact absurd (h.2.2.2 hne) (by simp)
    subst hty
    rcases h.2.2.1 rfl with ⟨t2, ht2, hcont⟩
    have he : t = t2 := by injection ht2
    subst he
    show containsSubL t.data openDelim = true
    exact hcont

theorem normalize_cardToJson (c : FlashcardData) (h : GoodCard c) :
    normalizeCard (cardToJson c) = c := by
  obtain ⟨ty, fr, bk, cz⟩ := c
  have h1 : ty ∈ validTypes := h.1
  cases cz with
  | none =>
    have hnc : ty ≠ "cloze" ∨ True := Or.inr trivial
    cases bk with
    | s v =>
      have hnl : ty ≠ "list" := by
        intro he
        rcases h.2.1.mp he with ⟨vs, hvs⟩
        cases hvs
      show (⟨ty, jsOrEmpty (some (.str fr)),
        if ty = "list" then
          .l (match getField (cardToJson ⟨ty, fr, .s v, none⟩) "back" with
              | some (.arr xs) => xs.map jsString
              | _ => [])
        else .s (jsOrEmpty (some (.str v))),
        if ty = "cloze" then none else none⟩ : FlashcardData) = _
      rw [if_neg hnl, jsOrEmpty_str, jsOrEmpty_str]
      simp
    | l vs =>
      have hl : ty = "list" := h.2.1.mpr ⟨vs, rfl⟩
      subst hl
      show (⟨"list", jsOrEmpty (some (.str fr)), .l ((vs.map Json.str).map jsString),
        none⟩ : FlashcardData) = _
      rw [jsOrEmpty_str, map_str_jsString]
  | some t =>
    have hty : ty = "cloze" := by
      by_contra hne
      exact absurd (h.2.2.2 hne) (by simp)
    subst hty
    rcases h.2.2.1 rfl with ⟨t2, ht2, hcont⟩
    have he : t = t2 := by injection ht2
    subst he
    have hne : t ≠ "" := by
      intro he2
      subst he2
      exact absurd hcont (by decide)
    have hbk : ∃ v, bk = .s v := by
      cases bk with
      | s v => exact ⟨v, rfl⟩
      | l vs => exact absurd (h.2.1.mpr ⟨vs, rfl⟩) (by simp)
    rcases hbk with ⟨v, rfl⟩
    show (⟨"cloze", jsOrEmpty (some (.str fr)), .s (jsOrEmpty (some (.str v))),
      if jsTruthy (.str t) then some (jsString (.str t)) else none⟩ : FlashcardData) = _
    rw [jsOrEmpty_str, jsOrEmpty_str]
    rw [if_pos (by simpa [jsTruthy] using hne)]
    rfl

theorem filterNorm_id (cards : List FlashcardData) (h : ∀ c ∈ cards, GoodCard c) :
    ((cards.map cardToJson).filter isValidCard).map normalizeCard = cards := by
  induction cards with
  | nil => rfl
  | cons c t ih =>
    have hc := h c (by simp)
    rw [List.map_cons, List.filter_cons, if_pos (by
      simpa using valid_cardToJson c hc)]
    rw [List.map_cons, normalize_cardToJson c hc]
    rw [ih (fun d hd => h d (by simp [hd]))]

/-- C3 (corrected): idempotence holds whenever the extraction/cleanup
pipeline leaves the re-serialized JSON text unchanged (no fenced-block
pattern inside it, and no comma-before-closing-bracket/brace sequence for
the repair to strip): re-parsing the serialized output reproduces the same
canonical sequence.  Unconditionally this is false — the cleanup pass also
rewrites string *content*, see the counterexample. -/
theorem c3_idempotent_guarded (s : String)
    (h : cleanedPayload (stringifyCards (parseAIResponse s)) =
      (stringifyCards (parseAIResponse s)).data) :
    parseAIResponse (stringifyCards (parseAIResponse s)) = parseAIResponse s := by
  have hgood : ∀ c ∈ parseAIResponse s, GoodCard c := fun c hc => parse_good s c hc
  have hp : parsedPayload (stringifyCards (parseAIResponse s)) =
      some (.arr ((parseAIResponse s).map cardToJson)) := by
    unfold parsedPayload
    rw [h, parse_stringifyCards]
  rw [parseAIResponse_arr _ _ hp]
  exact filterNorm_id _ hgood

/-- Counterexample for C3 as stated: a reachable canonical sequence (one
basic card whose front contains ",]]") does not survive re-serialization —
the trailing-comma repair rewrites the string content on the way back in. -/
theorem c3_counterexample :
    parseAIResponse (stringifyCards (parseAIResponse
      "[\x7b\"type\":\"basic\",\"front\":\"a,,]]b\",\"back\":\"x\"\x7d]")) ≠
    parseAIResponse "[\x7b\"type\":\"basic\",\"front\":\"a,,]]b\",\"back\":\"x\"\x7d]" := by
  decide

/-- Witness for C3: a benign payload round-trips — the guard holds and the
re-parsed sequence equals the original. -/
theorem c3_idempotent_guarded_witness :
    cleanedPayload (stringifyCards (parseAIResponse
      "[\x7b\"type\":\"basic\",\"front\":\"Q\",\"back\":\"A\"\x7d]")) =
      (stringifyCards (parseAIResponse
        "[\x7b\"type\":\"basic\",\"front\":\"Q\",\"back\":\"A\"\x7d]")).data ∧
    parseAIResponse (stringifyCards (parseAIResponse
      "[\x7b\"type\":\"basic\",\"front\":\"Q\",\"back\":\"A\"\x7d]")) =
      parseAIResponse "[\x7b\"type\":\"basic\",\"front\":\"Q\",\"back\":\"A\"\x7d]" := by
  constructor
  · decide
  · exact c3_idempotent_guarded "[\x7b\"type\":\"basic\",\"front\":\"Q\",\"back\":\"A\"\x7d]"
      (by decide)

end Flashcards
